import Mathlib

/-!
A verification development for the Conway polyhedron notation library.

The embedding follows the library's source code closely:

* Scalars.  The library computes with IEEE doubles.  The model computes with
  exact fractions (`Frac`: an integer numerator and a positive natural
  denominator, no gcd normalisation, so that all arithmetic is plain integer
  arithmetic and reduces in the kernel).  `Frac.toRat` maps a fraction to the
  rational number it denotes; algebraic statements are phrased through it.
* Square roots.  `math.Sqrt` has no exact counterpart on fractions.  Wherever
  the code divides a vector by its Euclidean length, the model divides by the
  squared length — a positive multiple of the code's value — and wherever the
  code compares a length against a bound, the model compares the squared
  length against the squared bound.  Every branch taken in the construction
  of a mesh depends only on the sign of a scalar product or on such a
  comparison, and signs are unchanged when a vector is scaled by a positive
  factor, so the control flow of the model matches the control flow of the
  code on real numbers.  Each such site carries a comment.
* Maps.  Go maps iterate in unspecified order; the model keeps every
  collection as a list in insertion order (ascending identifier order, since
  identifiers are assigned by an increasing counter), which realises one
  admissible execution.  The incidence maps stored inside Go's `Vertex`,
  `Edge` and `Face` values (`Vertex.Edges`, `Vertex.Faces`, `Edge.Faces`) are
  maintained by `AddEdge`/`AddFace` exactly in step with the containment
  relations `endpoint of`, `listed in face.Vertices`, `listed in face.Edges`;
  the model recovers them from those relations (`vertexEdges`, `vertexFaces`,
  `edgeFaces`).
* Caches.  The library's centroid/normal/area caches are invalidated on every
  structural change, so a cached read always equals a fresh computation; the
  model recomputes.
-/

namespace Conway

/-! ### Exact scalars -/

/-- An exact fraction: integer numerator over a positive natural denominator.
No gcd normalisation is performed, so all operations are single integer
operations and compute inside the kernel. -/
structure Frac where
  num : Int
  den : Nat
  den_pos : 0 < den

def Frac.ofInt (n : Int) : Frac := ⟨n, 1, Nat.one_pos⟩

def Frac.ofNat (n : Nat) : Frac := ⟨n, 1, Nat.one_pos⟩

instance (n : Nat) : OfNat Frac n := ⟨Frac.ofNat n⟩

def Frac.add (a b : Frac) : Frac :=
  ⟨a.num * b.den + b.num * a.den, a.den * b.den, Nat.mul_pos a.den_pos b.den_pos⟩

def Frac.sub (a b : Frac) : Frac :=
  ⟨a.num * b.den - b.num * a.den, a.den * b.den, Nat.mul_pos a.den_pos b.den_pos⟩

def Frac.mul (a b : Frac) : Frac :=
  ⟨a.num * b.num, a.den * b.den, Nat.mul_pos a.den_pos b.den_pos⟩

def Frac.inv (a : Frac) : Frac :=
  if h : a.num = 0 then ⟨0, 1, Nat.one_pos⟩
  else ⟨Int.sign a.num * a.den, a.num.natAbs, Int.natAbs_pos.mpr h⟩

def Frac.div (a b : Frac) : Frac := a.mul b.inv

instance : Add Frac := ⟨Frac.add⟩
instance : Sub Frac := ⟨Frac.sub⟩
instance : Mul Frac := ⟨Frac.mul⟩
instance : Div Frac := ⟨Frac.div⟩

/-- Strict order on fractions by cross multiplication (denominators are
positive, so this is the order of the denoted rationals). -/
def Frac.lt (a b : Frac) : Prop := a.num * (b.den : Int) < b.num * (a.den : Int)

instance : LT Frac := ⟨Frac.lt⟩

instance (a b : Frac) : Decidable (a < b) :=
  inferInstanceAs (Decidable (a.num * (b.den : Int) < b.num * (a.den : Int)))

/-- Semantic equality of fractions by cross multiplication. -/
def Frac.eqv (a b : Frac) : Prop := a.num * (b.den : Int) = b.num * (a.den : Int)

instance (a b : Frac) : Decidable (a.eqv b) :=
  inferInstanceAs (Decidable (a.num * (b.den : Int) = b.num * (a.den : Int)))

/-- The rational number denoted by a fraction. -/
def Frac.toRat (a : Frac) : ℚ := (a.num : ℚ) / (a.den : ℚ)

/-- `fmax m d` models Go's `if d > m { m = d }` update. -/
def Frac.fmax (m d : Frac) : Frac := if m < d then d else m

end Conway

namespace Conway

/-! ### Vector math (`Vector3`) -/

/-- 3-D vector over exact fractions, mirroring `Vector3` with `float64`
components. -/
structure Vector3 where
  x : Frac
  y : Frac
  z : Frac

def Vector3.zero : Vector3 := ⟨0, 0, 0⟩

/-- `Vector3.Add`. -/
def Vector3.add (v w : Vector3) : Vector3 := ⟨v.x + w.x, v.y + w.y, v.z + w.z⟩

/-- `Vector3.Sub`. -/
def Vector3.sub (v w : Vector3) : Vector3 := ⟨v.x - w.x, v.y - w.y, v.z - w.z⟩

/-- `Vector3.Scale`. -/
def Vector3.scale (v : Vector3) (s : Frac) : Vector3 := ⟨v.x * s, v.y * s, v.z * s⟩

/-- `Vector3.Dot`. -/
def Vector3.dot (v w : Vector3) : Frac := v.x * w.x + v.y * w.y + v.z * w.z

/-- `Vector3.Cross`. -/
def Vector3.cross (v w : Vector3) : Vector3 :=
  ⟨v.y * w.z - v.z * w.y, v.z * w.x - v.x * w.z, v.x * w.y - v.y * w.x⟩

/-- The squared Euclidean length.  The code's `Vector3.Length` is
`√lengthSq`; comparisons of lengths are modelled by comparisons of squared
lengths against squared bounds. -/
def Vector3.lengthSq (v : Vector3) : Frac := v.x * v.x + v.y * v.y + v.z * v.z

/-- `Vector3.Normalize` returns the input unchanged at length zero, otherwise
scales by the reciprocal length.  The model scales by the reciprocal squared
length — a positive multiple of the code's unit vector, with the same
direction, which is all any branch condition ever reads. -/
def Vector3.normalizeSq (v : Vector3) : Vector3 :=
  if v.lengthSq.eqv 0 then v else v.scale v.lengthSq.inv

/-! ### Mesh entities

Entities reference one another by identifier (the Go code holds pointers;
identifiers are its stable identities). -/

/-- `Vertex`: identifier and position.  The incidence maps `Edges`/`Faces`
are recovered from the mesh (see `vertexEdges`, `vertexFaces`). -/
structure Vertex where
  id : Nat
  position : Vector3

/-- `Edge`: identifier and the identifiers of its two endpoints.  The
incidence map `Faces` is recovered from the mesh (see `edgeFaces`). -/
structure Edge where
  id : Nat
  v1 : Nat
  v2 : Nat
deriving DecidableEq

/-- `Face`: identifier, ordered vertex identifiers, parallel edge
identifiers. -/
structure Face where
  id : Nat
  vertices : List Nat
  edges : List Nat
deriving DecidableEq

/-- `Polyhedron`: name plus the three entity collections in insertion order
(ascending identifier order) and the identifier counter. -/
structure Polyhedron where
  name : String
  vertices : List Vertex
  edges : List Edge
  faces : List Face
  nextID : Nat

/-- `NewPolyhedron`. -/
def newPolyhedron (name : String) : Polyhedron := ⟨name, [], [], [], 0⟩

/-- Position of the vertex with a given identifier (the Go code follows a
pointer; every identifier used by the library resolves). -/
def Polyhedron.posOf (p : Polyhedron) (vid : Nat) : Vector3 :=
  match p.vertices.find? (fun v => v.id == vid) with
  | some v => v.position
  | none => Vector3.zero

/-- `Vertex.Edges` recovered: edges having this vertex as an endpoint, in
insertion order. -/
def Polyhedron.vertexEdges (p : Polyhedron) (vid : Nat) : List Edge :=
  p.edges.filter (fun e => e.v1 == vid || e.v2 == vid)

/-- `Vertex.Faces` recovered: faces listing this vertex, in insertion order
(`AddFace` records the face on every vertex of its vertex sequence). -/
def Polyhedron.vertexFaces (p : Polyhedron) (vid : Nat) : List Face :=
  p.faces.filter (fun f => f.vertices.contains vid)

/-- `Edge.Faces` recovered: faces listing this edge, in insertion order
(`AddFace` records the face on every edge of its edge sequence). -/
def Polyhedron.edgeFaces (p : Polyhedron) (eid : Nat) : List Face :=
  p.faces.filter (fun f => f.edges.contains eid)

/-- `Vertex.Degree`. -/
def Polyhedron.degree (p : Polyhedron) (vid : Nat) : Nat := (p.vertexEdges vid).length

/-- The edge-lookup index `EdgeLookup.Find`: an existing edge joining the
unordered pair, if any (the index holds at most one edge per pair). -/
def Polyhedron.findEdge (p : Polyhedron) (a b : Nat) : Option Edge :=
  p.edges.find? (fun e => (e.v1 == a && e.v2 == b) || (e.v1 == b && e.v2 == a))

/-- `Polyhedron.calculateCentroidUnsafe` (the cache is transparent: it is
invalidated on every vertex change, so a cached read equals this fresh
computation). -/
def Polyhedron.calculateCentroid (p : Polyhedron) : Vector3 :=
  if p.vertices.isEmpty then Vector3.zero
  else
    (p.vertices.foldl (fun s v => s.add v.position) Vector3.zero).scale
      (Frac.ofNat p.vertices.length).inv

/-- `Polyhedron.AddVertex`: returns the fresh vertex and the updated mesh. -/
def Polyhedron.AddVertex (p : Polyhedron) (pos : Vector3) : Vertex × Polyhedron :=
  let v : Vertex := ⟨p.nextID + 1, pos⟩
  (v, { p with vertices := p.vertices ++ [v], nextID := p.nextID + 1 })

/-- `Polyhedron.addEdgeUnsafe`: consult the pair index first, otherwise
create a fresh edge. -/
def Polyhedron.AddEdge (p : Polyhedron) (a b : Nat) : Edge × Polyhedron :=
  match p.findEdge a b with
  | some e => (e, p)
  | none =>
    let e : Edge := ⟨p.nextID + 1, a, b⟩
    (e, { p with edges := p.edges ++ [e], nextID := p.nextID + 1 })

/-- The consecutive pairs of a vertex cycle, including the wrap-around pair:
`AddFace` creates an edge for `vertices[i] → vertices[(i+1) mod n]`, for
`i = 0 … n-1`. -/
def cyclicPairs (l : List Nat) : List (Nat × Nat) :=
  (List.range l.length).map (fun i => (l.getD i 0, l.getD ((i + 1) % l.length) 0))

/-- The recurring loop "for each item: `v := AddVertex(position item)`;
`assoc[key item] = v`", returning the grown mesh together with the
key → fresh-vertex-identifier assignment in iteration order (the Go code
keeps this assignment in a local map). -/
def addVertsKeyedStep {α : Type} (key : α → Nat) (pos : α → Vector3)
    (st : Polyhedron × List (Nat × Nat)) (a : α) : Polyhedron × List (Nat × Nat) :=
  let vm := st.1.AddVertex (pos a)
  (vm.2, st.2 ++ [(key a, vm.1.id)])

def addVertsKeyed {α : Type} (m0 : Polyhedron) (items : List α)
    (key : α → Nat) (pos : α → Vector3) : Polyhedron × List (Nat × Nat) :=
  items.foldl (addVertsKeyedStep key pos) (m0, [])

/-- `calculateFaceNormal` (Newell's method).  The accumulator is exact; the
code then rejects it when its length is below `1e-12` and otherwise scales by
the reciprocal length — the model compares the squared length with `1e-24`
and scales by the reciprocal squared length (same direction, positive
multiple). -/
def calculateFaceNormal (p : Polyhedron) (vs : List Nat) : Option Vector3 :=
  if vs.length < 3 then none
  else
    let n := (cyclicPairs vs).foldl
      (fun (n : Vector3) ab =>
        let a := p.posOf ab.1
        let b := p.posOf ab.2
        ⟨n.x + (a.y - b.y) * (a.z + b.z),
         n.y + (a.z - b.z) * (a.x + b.x),
         n.z + (a.x - b.x) * (a.y + b.y)⟩)
      Vector3.zero
    if n.lengthSq < Frac.ofNat 1 / Frac.ofNat (10 ^ 24) then none
    else some (n.scale n.lengthSq.inv)

/-- The centroid of a list of positions (inlined in `ensureCounterClockwise`). -/
def centroidOfPositions (ps : List Vector3) : Vector3 :=
  (ps.foldl Vector3.add Vector3.zero).scale (Frac.ofNat ps.length).inv

/-- `ensureCounterClockwise`: reverse the vertex order when the Newell normal
points inward relative to the polyhedron centre.  The code normalises the
outward vector before the sign test; the model's `normalizeSq` is a positive
multiple of it, leaving the sign unchanged. -/
def ensureCounterClockwise (p : Polyhedron) (vs : List Nat) (center : Vector3) :
    List Nat :=
  if vs.length < 3 then vs
  else
    match calculateFaceNormal p vs with
    | none => vs
    | some normal =>
      let centroid := centroidOfPositions (vs.map p.posOf)
      let outward := (centroid.sub center).normalizeSq
      if normal.dot outward < 0 then vs.reverse else vs

/-- The loop body of `AddFace`: create or retrieve the edge of one
consecutive vertex pair and record its identifier on the face. -/
def addFaceEdgeStep (st : Polyhedron × List Nat) (ab : Nat × Nat) :
    Polyhedron × List Nat :=
  let em := st.1.AddEdge ab.1 ab.2
  (em.2, st.2 ++ [em.1.id])

/-- The vertex sequence `AddFace` actually stores: the input corrected by
`ensureCounterClockwise` once the mesh has more than three vertices. -/
def Polyhedron.storedVerts (p : Polyhedron) (vs : List Nat) : List Nat :=
  if p.vertices.length > 3
    then ensureCounterClockwise p vs p.calculateCentroid else vs

/-- `Polyhedron.AddFace`: correct the winding when more than three vertices
exist, register the face, then create or retrieve the edge of every
consecutive vertex pair (including wrap-around).  The face's identifier is
drawn before the edges', as in the code. -/
def Polyhedron.AddFace (p : Polyhedron) (vs : List Nat) : Polyhedron :=
  let vs := p.storedVerts vs
  let fid := p.nextID + 1
  let res := (cyclicPairs vs).foldl addFaceEdgeStep ({ p with nextID := fid }, [])
  { res.1 with faces := res.1.faces ++ [⟨fid, vs, res.2⟩] }

/-- `Polyhedron.EulerCharacteristic`. -/
def Polyhedron.eulerCharacteristic (p : Polyhedron) : Int :=
  (p.vertices.length : Int) - (p.edges.length : Int) + (p.faces.length : Int)

/-- The mesh with every vertex translated by minus the centroid (first half
of `Normalize`). -/
def Polyhedron.centered (p : Polyhedron) : Polyhedron :=
  let c := p.calculateCentroid
  { p with vertices := p.vertices.map (fun v => { v with position := v.position.sub c }) }

/-- The largest squared distance of a vertex from the origin (the code takes
the largest distance; `max` of square roots is the square root of `max`). -/
def Polyhedron.maxDistSq (p : Polyhedron) : Frac :=
  p.vertices.foldl (fun m v => m.fmax v.position.lengthSq) 0

/-- `Normalize` with an explicit scale factor: translate to the centroid and,
if any vertex is away from it, scale every position by `s`.  The code uses
`s = 1/maxDist = 1/√maxDistSq`, which is irrational; theorems about
`Normalize` characterise it by `s ≥ 0 ∧ s²·maxDistSq = 1`. -/
def Polyhedron.normalizeWith (p : Polyhedron) (s : Frac) : Polyhedron :=
  let q := p.centered
  if (0 : Frac) < q.maxDistSq then
    { q with vertices := q.vertices.map (fun v => { v with position := v.position.scale s }) }
  else q

/-- `Polyhedron.Normalize`.  The concrete scale is the reciprocal squared
maximal distance, `1/maxDistSq` — the code's `1/√maxDistSq` times the
positive factor `1/√maxDistSq`; a uniform positive rescaling that no later
branch condition can observe (see the header note on square roots). -/
def Polyhedron.Normalize (p : Polyhedron) : Polyhedron :=
  p.normalizeWith p.centered.maxDistSq.inv

/-- `Face.Centroid` (cache-transparent). -/
def Polyhedron.faceCentroid (p : Polyhedron) (f : Face) : Vector3 :=
  if f.vertices.isEmpty then Vector3.zero
  else centroidOfPositions (f.vertices.map p.posOf)

/-- `Face.Normal` (cache-transparent): Newell's method, falling back to a
cross product of the first three vertices for degenerate faces; both results
are normalised — by squared length in the model (positive multiple). -/
def Polyhedron.faceNormal (p : Polyhedron) (f : Face) : Vector3 :=
  if f.vertices.length < 3 then Vector3.zero
  else
    match calculateFaceNormal p f.vertices with
    | some n => n
    | none =>
      let a := p.posOf (f.vertices.getD 0 0)
      let b := p.posOf (f.vertices.getD 1 0)
      let c := p.posOf (f.vertices.getD 2 0)
      ((b.sub a).cross (c.sub a)).normalizeSq

/-- The face-copying loop body of `Clone` (and the face loops of `dual`,
`ambo`, `kis` share its shape): add a face with vertices mapped through an
identifier assignment. -/
def cloneFaceStep (vmap : Nat → Nat) (m : Polyhedron) (f : Face) : Polyhedron :=
  m.AddFace (f.vertices.map vmap)

/-- `Polyhedron.Clone`: copy the vertices in order (fresh identifiers), then
re-add every face with its vertices mapped through the old→new identifier
assignment; edges are rebuilt by the add-face path. -/
def Polyhedron.Clone (p : Polyhedron) : Polyhedron :=
  let vm := addVertsKeyed (newPolyhedron p.name) p.vertices Vertex.id Vertex.position
  p.faces.foldl (cloneFaceStep (fun vid => ((vm.2.lookup vid).getD 0))) vm.1

/-- `Polyhedron.Stats`. -/
def Polyhedron.stats (p : Polyhedron) : String :=
  p.name ++ ": V=" ++ toString p.vertices.length ++ ", E=" ++ toString p.edges.length
    ++ ", F=" ++ toString p.faces.length ++ ", chi=" ++ toString p.eulerCharacteristic

/-- The (V, E, F) counts of a mesh. -/
def Polyhedron.counts (p : Polyhedron) : Nat × Nat × Nat :=
  (p.vertices.length, p.edges.length, p.faces.length)

end Conway

namespace Conway

/-! ### Topology traversals -/

/-- The `Edge` objects of a face's edge-identifier list. -/
def Polyhedron.faceEdges (p : Polyhedron) (f : Face) : List Edge :=
  f.edges.filterMap (fun eid => p.edges.find? (fun e => e.id == eid))

/-- `facesShareEdge`: the two faces list a common edge. -/
def facesShareEdge (f g : Face) : Bool :=
  f.edges.any (fun eid => g.edges.contains eid)

/-- `findNextFaceInEdges`: scan the vertex's edges, then each edge's faces,
for an unvisited face sharing an edge with the current one. -/
def findNextFaceInEdges (p : Polyhedron) (vid : Nat) (current : Face)
    (ordered : List Face) : Option Face :=
  (p.vertexEdges vid).findSome? (fun e =>
    (p.edgeFaces e.id).find? (fun f =>
      f.id ≠ current.id && !(ordered.any (fun g => g.id == f.id))
        && facesShareEdge current f))

/-- The loop body of `orderFacesAroundVertex`; `fuel` bounds the iteration
count (each pass appends one face, so `faces.length` passes suffice —
the Go loop runs while `len(ordered) < len(faces)` and breaks when no next
face is found). -/
def orderFacesLoop (p : Polyhedron) (vid : Nat) (faces : List Face) :
    Nat → List Face → Face → List Face
  | 0, ordered, _ => ordered
  | fuel + 1, ordered, current =>
    if ordered.length < faces.length then
      let next := match findNextFaceInEdges p vid current ordered with
        | some f => some f
        | none => faces.find? (fun f => !(ordered.any (fun g => g.id == f.id)))
      match next with
      | some f => orderFacesLoop p vid faces fuel (ordered ++ [f]) f
      | none => ordered
    else ordered

/-- `orderFacesAroundVertex`. -/
def Polyhedron.orderFacesAroundVertex (p : Polyhedron) (vid : Nat) : List Face :=
  let faces := p.vertexFaces vid
  match faces with
  | [] => []
  | f0 :: _ =>
    if faces.length ≤ 2 then faces
    else orderFacesLoop p vid faces faces.length [f0] f0

/-- `findNextEdgeInFaces`/`findNextEdgeInFace`: scan the vertex's faces that
contain the current edge for an unvisited edge of that face incident to the
vertex. -/
def findNextEdgeInFaces (p : Polyhedron) (vid : Nat) (current : Edge)
    (ordered : List Edge) : Option Edge :=
  (p.vertexFaces vid).findSome? (fun f =>
    if f.edges.contains current.id then
      (p.faceEdges f).find? (fun e =>
        e.id ≠ current.id && !(ordered.any (fun d => d.id == e.id))
          && (e.v1 == vid || e.v2 == vid))
    else none)

/-- The loop body of `orderEdgesAroundVertex` (same shape as
`orderFacesLoop`). -/
def orderEdgesLoop (p : Polyhedron) (vid : Nat) (edges : List Edge) :
    Nat → List Edge → Edge → List Edge
  | 0, ordered, _ => ordered
  | fuel + 1, ordered, current =>
    if ordered.length < edges.length then
      let next := match findNextEdgeInFaces p vid current ordered with
        | some e => some e
        | none => edges.find? (fun e => !(ordered.any (fun d => d.id == e.id)))
      match next with
      | some e => orderEdgesLoop p vid edges fuel (ordered ++ [e]) e
      | none => ordered
    else ordered

/-- `orderEdgesAroundVertex`. -/
def Polyhedron.orderEdgesAroundVertex (p : Polyhedron) (vid : Nat) : List Edge :=
  let edges := p.vertexEdges vid
  match edges with
  | [] => []
  | e0 :: _ =>
    if edges.length ≤ 2 then edges
    else orderEdgesLoop p vid edges edges.length [e0] e0

/-! ### Operators -/

/-- The edge loop body of `dual`: for an input edge on exactly two faces,
add (or retrieve) the edge between the two dual vertices. -/
def dualEdgeStep (p : Polyhedron) (fv : Nat → Nat) (m : Polyhedron) (e : Edge) :
    Polyhedron :=
  let fs := p.edgeFaces e.id
  if fs.length == 2 then
    (m.AddEdge (fv ((fs.getD 0 ⟨0, [], []⟩).id)) (fv ((fs.getD 1 ⟨0, [], []⟩).id))).2
  else m

/-- The vertex loop body of `dual`: for an input vertex on at least three
faces, add the face of its ordered dual vertices. -/
def dualVertexStep (p : Polyhedron) (fv : Nat → Nat) (m : Polyhedron) (v : Vertex) :
    Polyhedron :=
  if 3 ≤ (p.vertexFaces v.id).length then
    m.AddFace ((p.orderFacesAroundVertex v.id).map (fun f => fv f.id))
  else m

/-- `DualOp.Apply`: a vertex at every face centroid, an edge for every input
edge with exactly two faces, a face for every input vertex with at least
three incident faces, its dual vertices in `orderFacesAroundVertex` order. -/
def dualOp (p : Polyhedron) : Polyhedron :=
  let fvs := addVertsKeyed (newPolyhedron ("d" ++ p.name)) p.faces
    Face.id (fun f => p.faceCentroid f)
  let fv := fun (fid : Nat) => (fvs.2.lookup fid).getD 0
  let d1 := p.edges.foldl (dualEdgeStep p fv) fvs.1
  let d2 := p.vertices.foldl (dualVertexStep p fv) d1
  d2.Normalize

/-- The face loop body of `ambo`: one face per input face, its vertices the
midpoint vertices of the face's edges in face-edge order. -/
def amboFaceStep (ev : Nat → Nat) (m : Polyhedron) (f : Face) : Polyhedron :=
  m.AddFace (f.edges.map ev)

/-- The vertex loop body of `ambo`: for an input vertex of degree at least
three, one face of the midpoint vertices of its ordered edges. -/
def amboVertexStep (p : Polyhedron) (ev : Nat → Nat) (m : Polyhedron) (v : Vertex) :
    Polyhedron :=
  if 3 ≤ (p.vertexEdges v.id).length then
    m.AddFace ((p.orderEdgesAroundVertex v.id).map (fun e => ev e.id))
  else m

/-- `AmboOp.Apply`: a vertex at every edge midpoint, a face per input face
(midpoints in face-edge order), a face per input vertex of degree ≥ 3
(midpoints in `orderEdgesAroundVertex` order). -/
def amboOp (p : Polyhedron) : Polyhedron :=
  -- Edge.Midpoint: (V1 + V2) · 0.5
  let evs := addVertsKeyed (newPolyhedron ("a" ++ p.name)) p.edges Edge.id
    (fun e => ((p.posOf e.v1).add (p.posOf e.v2)).scale (Frac.ofNat 1 / Frac.ofNat 2))
  let ev := fun (eid : Nat) => (evs.2.lookup eid).getD 0
  let a1 := p.faces.foldl (amboFaceStep ev) evs.1
  let a2 := p.vertices.foldl (amboVertexStep p ev) a1
  a2.Normalize

/-- The triangle loop body of `kis`: one triangle per face edge, closing at
the apex. -/
def kisTriangleStep (apex : Nat) (m2 : Polyhedron) (ab : Nat × Nat) : Polyhedron :=
  m2.AddFace [ab.1, ab.2, apex]

/-- The face loop body of `kis`: a fresh apex vertex at
`centroid + 0.5·normal`, then one triangle per face edge. -/
def kisFaceStep (p : Polyhedron) (vmap : Nat → Nat) (m : Polyhedron) (f : Face) :
    Polyhedron :=
  let apexPos := (p.faceCentroid f).add
    ((p.faceNormal f).scale (Frac.ofNat 1 / Frac.ofNat 2))
  let am := m.AddVertex apexPos
  let faceVs := f.vertices.map vmap
  (cyclicPairs faceVs).foldl (kisTriangleStep am.1.id) am.2

/-- `KisOp.Apply`: copy the input vertices; per face, an apex at
`centroid + 0.5·normal` and a triangle per face edge. -/
def kisOp (p : Polyhedron) : Polyhedron :=
  let vms := addVertsKeyed (newPolyhedron ("k" ++ p.name)) p.vertices
    Vertex.id Vertex.position
  let vmap := fun (vid : Nat) => (vms.2.lookup vid).getD 0
  let k1 := p.faces.foldl (kisFaceStep p vmap) vms.1
  k1.Normalize

/-- The edge loop body of `truncate`: two fresh vertices along the edge at
parameters `t` and `1-t`, keyed by `(edge id, endpoint id)`. -/
def truncEdgeStep (p : Polyhedron) (t : Frac)
    (st : Polyhedron × List ((Nat × Nat) × Nat)) (e : Edge) :
    Polyhedron × List ((Nat × Nat) × Nat) :=
  let v1p := p.posOf e.v1
  let v2p := p.posOf e.v2
  let n1 := v1p.add ((v2p.sub v1p).scale t)
  let n2 := v1p.add ((v2p.sub v1p).scale (Frac.ofNat 1 - t))
  let m1 := st.1.AddVertex n1
  let m2 := m1.2.AddVertex n2
  (m2.2, st.2 ++ [((e.id, e.v1), m1.1.id), ((e.id, e.v2), m2.1.id)])

/-- `findAdjacentEdges`: the last matching edge wins, as in the Go loop,
which keeps overwriting `edge1`/`edge2` on a match. -/
def findAdjacentEdges (p : Polyhedron) (vid prevId nextId : Nat) :
    Option Edge × Option Edge :=
  (p.vertexEdges vid).foldl
    (fun (st : Option Edge × Option Edge) e =>
      let other := if e.v1 == vid then some e.v2
        else if e.v2 == vid then some e.v1 else none
      match other with
      | some o =>
        if o == prevId then (some e, st.2)
        else if o == nextId then (st.1, some e) else st
      | none => st)
    (none, none)

/-- The face loop body of `truncate`: collect, for each vertex of the face,
the keyed vertices on its two face edges; register the face when at least
three were found. -/
def truncFaceStep (p : Polyhedron) (ev : Nat × Nat → Option Nat)
    (m : Polyhedron) (f : Face) : Polyhedron :=
  let n := f.vertices.length
  let newFaceVs := (List.range n).foldl
    (fun (acc : List Nat) i =>
      let vid := f.vertices.getD i 0
      let prevId := f.vertices.getD ((i + n - 1) % n) 0
      let nextId := f.vertices.getD ((i + 1) % n) 0
      match findAdjacentEdges p vid prevId nextId with
      | (some e1, some e2) =>
        let acc1 := match ev (e1.id, vid) with
          | some v => acc ++ [v]
          | none => acc
        match ev (e2.id, vid) with
        | some v => acc1 ++ [v]
        | none => acc1
      | _ => acc)
    []
  if 3 ≤ newFaceVs.length then m.AddFace newFaceVs else m

/-- The vertex loop body of `truncate`: the keyed vertices of the ordered
edges around the vertex; register the small face when at least three were
found. -/
def truncVertexStep (p : Polyhedron) (ev : Nat × Nat → Option Nat)
    (m : Polyhedron) (v : Vertex) : Polyhedron :=
  let vfv := (p.orderEdgesAroundVertex v.id).foldl
    (fun (acc : List Nat) e =>
      match ev (e.id, v.id) with
      | some w => acc ++ [w]
      | none => acc)
    []
  if 3 ≤ vfv.length then m.AddFace vfv else m

/-- `TruncateOp.Apply` with the default truncation factor 1/3: two keyed
vertices per edge, a large face per input face, a small face per input
vertex. -/
def truncateOp (p : Polyhedron) : Polyhedron :=
  let t := Frac.ofNat 1 / Frac.ofNat 3
  let evs := p.edges.foldl (truncEdgeStep p t) (newPolyhedron ("t" ++ p.name), [])
  let ev := fun (k : Nat × Nat) => evs.2.lookup k
  let t1 := p.faces.foldl (truncFaceStep p ev) evs.1
  let t2 := p.vertices.foldl (truncVertexStep p ev) t1
  t2.Normalize

/-- `JoinOp.Apply`: the code computes `Ambo(Dual(p))`. -/
def joinOp (p : Polyhedron) : Polyhedron := amboOp (dualOp p)

/-- `OrthoOp.Apply = Join(Join(p))`. -/
def orthoOp (p : Polyhedron) : Polyhedron := joinOp (joinOp p)

/-- `ExpandOp.Apply = Ambo(Ambo(p))`. -/
def expandOp (p : Polyhedron) : Polyhedron := amboOp (amboOp p)

/-- `GyroOp.Apply = Dual(Ambo(p))`. -/
def gyroOp (p : Polyhedron) : Polyhedron := dualOp (amboOp p)

/-- `SnubOp.Apply = Dual(Gyro(p))`. -/
def snubOp (p : Polyhedron) : Polyhedron := dualOp (gyroOp p)

end Conway

namespace Conway

/-! ### Seeds -/

/-- A shorthand for building a vector from integers. -/
def vec (a b c : Int) : Vector3 := ⟨Frac.ofInt a, Frac.ofInt b, Frac.ofInt c⟩

/-- `Tetrahedron`.  The code uses coordinates `±a` with `a = 1/√3`; the model
uses `±1`, the same coordinates multiplied by the positive constant `√3`,
which leaves the sign of every winding test unchanged and is erased by the
final `Normalize` up to the model's square-root convention. -/
def Tetrahedron : Polyhedron :=
  let p0 := newPolyhedron "Tetrahedron"
  let m1 := p0.AddVertex (vec 1 1 1)
  let m2 := m1.2.AddVertex (vec 1 (-1) (-1))
  let m3 := m2.2.AddVertex (vec (-1) 1 (-1))
  let m4 := m3.2.AddVertex (vec (-1) (-1) 1)
  let v := fun (i : Nat) => [m1.1.id, m2.1.id, m3.1.id, m4.1.id].getD i 0
  let q := m4.2
  let q := q.AddFace [v 0, v 1, v 2]
  let q := q.AddFace [v 0, v 1, v 3]
  let q := q.AddFace [v 0, v 2, v 3]
  let q := q.AddFace [v 1, v 2, v 3]
  q.Normalize

/-- `Cube`. -/
def Cube : Polyhedron :=
  let p0 := newPolyhedron "Cube"
  let m1 := p0.AddVertex (vec 1 1 1)
  let m2 := m1.2.AddVertex (vec 1 1 (-1))
  let m3 := m2.2.AddVertex (vec 1 (-1) 1)
  let m4 := m3.2.AddVertex (vec 1 (-1) (-1))
  let m5 := m4.2.AddVertex (vec (-1) 1 1)
  let m6 := m5.2.AddVertex (vec (-1) 1 (-1))
  let m7 := m6.2.AddVertex (vec (-1) (-1) 1)
  let m8 := m7.2.AddVertex (vec (-1) (-1) (-1))
  let v := fun (i : Nat) =>
    [m1.1.id, m2.1.id, m3.1.id, m4.1.id, m5.1.id, m6.1.id, m7.1.id, m8.1.id].getD i 0
  let q := m8.2
  let q := q.AddFace [v 0, v 2, v 3, v 1]
  let q := q.AddFace [v 4, v 5, v 7, v 6]
  let q := q.AddFace [v 0, v 1, v 5, v 4]
  let q := q.AddFace [v 2, v 6, v 7, v 3]
  let q := q.AddFace [v 0, v 4, v 6, v 2]
  let q := q.AddFace [v 1, v 3, v 7, v 5]
  q.Normalize

/-- `Octahedron`. -/
def Octahedron : Polyhedron :=
  let p0 := newPolyhedron "Octahedron"
  let m1 := p0.AddVertex (vec 1 0 0)
  let m2 := m1.2.AddVertex (vec (-1) 0 0)
  let m3 := m2.2.AddVertex (vec 0 1 0)
  let m4 := m3.2.AddVertex (vec 0 (-1) 0)
  let m5 := m4.2.AddVertex (vec 0 0 1)
  let m6 := m5.2.AddVertex (vec 0 0 (-1))
  let v := fun (i : Nat) =>
    [m1.1.id, m2.1.id, m3.1.id, m4.1.id, m5.1.id, m6.1.id].getD i 0
  let q := m6.2
  let q := q.AddFace [v 0, v 2, v 4]
  let q := q.AddFace [v 0, v 4, v 3]
  let q := q.AddFace [v 0, v 3, v 5]
  let q := q.AddFace [v 0, v 5, v 2]
  let q := q.AddFace [v 1, v 4, v 2]
  let q := q.AddFace [v 1, v 3, v 4]
  let q := q.AddFace [v 1, v 5, v 3]
  let q := q.AddFace [v 1, v 2, v 5]
  q.Normalize

/-- A vector with `Frac` entries (for the golden-ratio seeds). -/
def vecF (a b c : Frac) : Vector3 := ⟨a, b, c⟩

/-- `Dodecahedron`.  The code sets `phi = (1+√5)/2`, which is irrational;
the model takes `phi` as a parameter (theorems about the parser hold for
every value of it). -/
def Dodecahedron (phi : Frac) : Polyhedron :=
  let invPhi := Frac.ofNat 1 / phi
  let p0 := newPolyhedron "Dodecahedron"
  let one := Frac.ofNat 1
  let neg := fun (a : Frac) => Frac.ofNat 0 - a
  let m1 := p0.AddVertex (vecF one one one)
  let m2 := m1.2.AddVertex (vecF one one (neg one))
  let m3 := m2.2.AddVertex (vecF one (neg one) one)
  let m4 := m3.2.AddVertex (vecF one (neg one) (neg one))
  let m5 := m4.2.AddVertex (vecF (neg one) one one)
  let m6 := m5.2.AddVertex (vecF (neg one) one (neg one))
  let m7 := m6.2.AddVertex (vecF (neg one) (neg one) one)
  let m8 := m7.2.AddVertex (vecF (neg one) (neg one) (neg one))
  let m9 := m8.2.AddVertex (vecF 0 phi invPhi)
  let m10 := m9.2.AddVertex (vecF 0 phi (neg invPhi))
  let m11 := m10.2.AddVertex (vecF 0 (neg phi) invPhi)
  let m12 := m11.2.AddVertex (vecF 0 (neg phi) (neg invPhi))
  let m13 := m12.2.AddVertex (vecF invPhi 0 phi)
  let m14 := m13.2.AddVertex (vecF invPhi 0 (neg phi))
  let m15 := m14.2.AddVertex (vecF (neg invPhi) 0 phi)
  let m16 := m15.2.AddVertex (vecF (neg invPhi) 0 (neg phi))
  let m17 := m16.2.AddVertex (vecF phi invPhi 0)
  let m18 := m17.2.AddVertex (vecF phi (neg invPhi) 0)
  let m19 := m18.2.AddVertex (vecF (neg phi) invPhi 0)
  let m20 := m19.2.AddVertex (vecF (neg phi) (neg invPhi) 0)
  let v := fun (i : Nat) =>
    [m1.1.id, m2.1.id, m3.1.id, m4.1.id, m5.1.id, m6.1.id, m7.1.id, m8.1.id,
     m9.1.id, m10.1.id, m11.1.id, m12.1.id, m13.1.id, m14.1.id, m15.1.id,
     m16.1.id, m17.1.id, m18.1.id, m19.1.id, m20.1.id].getD i 0
  let q := m20.2
  let q := q.AddFace [v 0, v 8, v 4, v 14, v 12]
  let q := q.AddFace [v 0, v 12, v 2, v 17, v 16]
  let q := q.AddFace [v 0, v 16, v 1, v 9, v 8]
  let q := q.AddFace [v 1, v 16, v 17, v 3, v 13]
  let q := q.AddFace [v 1, v 13, v 15, v 5, v 9]
  let q := q.AddFace [v 2, v 12, v 14, v 6, v 10]
  let q := q.AddFace [v 2, v 10, v 11, v 3, v 17]
  let q := q.AddFace [v 3, v 11, v 7, v 15, v 13]
  let q := q.AddFace [v 4, v 8, v 9, v 5, v 18]
  let q := q.AddFace [v 4, v 18, v 19, v 6, v 14]
  let q := q.AddFace [v 5, v 15, v 7, v 19, v 18]
  let q := q.AddFace [v 6, v 19, v 7, v 11, v 10]
  q.Normalize

/-- `Icosahedron` (same convention for `phi` as `Dodecahedron`). -/
def Icosahedron (phi : Frac) : Polyhedron :=
  let p0 := newPolyhedron "Icosahedron"
  let one := Frac.ofNat 1
  let neg := fun (a : Frac) => Frac.ofNat 0 - a
  let m1 := p0.AddVertex (vecF 0 one phi)
  let m2 := m1.2.AddVertex (vecF 0 one (neg phi))
  let m3 := m2.2.AddVertex (vecF 0 (neg one) phi)
  let m4 := m3.2.AddVertex (vecF 0 (neg one) (neg phi))
  let m5 := m4.2.AddVertex (vecF one phi 0)
  let m6 := m5.2.AddVertex (vecF one (neg phi) 0)
  let m7 := m6.2.AddVertex (vecF (neg one) phi 0)
  let m8 := m7.2.AddVertex (vecF (neg one) (neg phi) 0)
  let m9 := m8.2.AddVertex (vecF phi 0 one)
  let m10 := m9.2.AddVertex (vecF phi 0 (neg one))
  let m11 := m10.2.AddVertex (vecF (neg phi) 0 one)
  let m12 := m11.2.AddVertex (vecF (neg phi) 0 (neg one))
  let v := fun (i : Nat) =>
    [m1.1.id, m2.1.id, m3.1.id, m4.1.id, m5.1.id, m6.1.id, m7.1.id, m8.1.id,
     m9.1.id, m10.1.id, m11.1.id, m12.1.id].getD i 0
  let q := m12.2
  let q := q.AddFace [v 0, v 2, v 8]
  let q := q.AddFace [v 0, v 8, v 4]
  let q := q.AddFace [v 0, v 4, v 6]
  let q := q.AddFace [v 0, v 6, v 10]
  let q := q.AddFace [v 0, v 10, v 2]
  let q := q.AddFace [v 3, v 1, v 9]
  let q := q.AddFace [v 3, v 9, v 5]
  let q := q.AddFace [v 3, v 5, v 7]
  let q := q.AddFace [v 3, v 7, v 11]
  let q := q.AddFace [v 3, v 11, v 1]
  let q := q.AddFace [v 2, v 10, v 7]
  let q := q.AddFace [v 2, v 7, v 5]
  let q := q.AddFace [v 2, v 5, v 8]
  let q := q.AddFace [v 8, v 5, v 9]
  let q := q.AddFace [v 8, v 9, v 4]
  let q := q.AddFace [v 4, v 9, v 1]
  let q := q.AddFace [v 4, v 1, v 6]
  let q := q.AddFace [v 6, v 1, v 11]
  let q := q.AddFace [v 6, v 11, v 10]
  let q := q.AddFace [v 10, v 11, v 7]
  q.Normalize

/-- `GetSeed` on a single character (the code passes `string(char)`). -/
def GetSeed (phi : Frac) (c : Char) : Option Polyhedron :=
  if c = 'T' then some Tetrahedron
  else if c = 'C' then some Cube
  else if c = 'O' then some Octahedron
  else if c = 'D' then some (Dodecahedron phi)
  else if c = 'I' then some (Icosahedron phi)
  else none

end Conway

namespace Conway

/-! ### Parser / evaluator -/

/-- The nine operators registered in `NewParser`. -/
inductive Op where
  | d | a | t | k | j | o | e | g | s
deriving DecidableEq

/-- The `operations` table of `NewParser`. -/
def opFor (c : Char) : Option Op :=
  if c = 'd' then some .d
  else if c = 'a' then some .a
  else if c = 't' then some .t
  else if c = 'k' then some .k
  else if c = 'j' then some .j
  else if c = 'o' then some .o
  else if c = 'e' then some .e
  else if c = 'g' then some .g
  else if c = 's' then some .s
  else none

/-- `Operation.Apply` dispatch. -/
def applyOp : Op → Polyhedron → Polyhedron
  | .d, p => dualOp p
  | .a, p => amboOp p
  | .t, p => truncateOp p
  | .k, p => kisOp p
  | .j, p => joinOp p
  | .o, p => orthoOp p
  | .e, p => expandOp p
  | .g, p => gyroOp p
  | .s, p => snubOp p

/-- The parse errors (`ErrEmptyNotation`, `ErrNoSeedPolyhedron`,
`ErrUnknownSeedPolyhedron` with the offending character,
`ErrUnknownOperation` with the offending character and its byte offset). -/
inductive ParseError where
  | emptyInput
  | noSeed
  | unknownSeed (c : Char)
  | unknownOp (c : Char) (pos : Nat)
deriving DecidableEq

/-- Go's `unicode.IsSpace` (the White_Space code points). -/
def isGoSpace (c : Char) : Bool :=
  c = ' ' || c = '\t' || c = '\n' || (0xB ≤ c.toNat && c.toNat ≤ 0xD)
    || c.toNat = 0x85 || c.toNat = 0xA0 || c.toNat = 0x1680
    || (0x2000 ≤ c.toNat && c.toNat ≤ 0x200A)
    || c.toNat = 0x2028 || c.toNat = 0x2029 || c.toNat = 0x202F
    || c.toNat = 0x205F || c.toNat = 0x3000

/-- `strings.TrimSpace`. -/
def trimGo (cs : List Char) : List Char :=
  ((cs.dropWhile isGoSpace).reverse.dropWhile isGoSpace).reverse

/-- Total UTF-8 byte length of a character list (Go's `len(notation)`). -/
def byteLen (cs : List Char) : Nat := (cs.map Char.utf8Size).sum

/-- The character scan of `parseNotation`.  `i` is the byte offset of the
next character (Go's `for i, char := range notation` yields byte offsets) and
`total` the byte length of the scanned string.  The final-character test
`i == len(notation)-1` therefore holds only for a final one-byte character. -/
def scanChars (phi : Frac) (total : Nat) :
    List Char → Nat → Option Polyhedron → List Op →
    Except ParseError (Option Polyhedron × List Op)
  | [], _, seed, ops => .ok (seed, ops)
  | c :: rest, i, seed, ops =>
    match seed with
    | none =>
      match GetSeed phi c with
      | some sd => scanChars phi total rest (i + c.utf8Size) (some sd) ops
      | none =>
        match opFor c with
        | some op => scanChars phi total rest (i + c.utf8Size) none (ops ++ [op])
        | none =>
          if i = total - 1 then
            -- the re-lookup `GetSeed(symbol)` here is the code's dead branch:
            -- in this path it has already returned none
            match GetSeed phi c with
            | some sd => scanChars phi total rest (i + c.utf8Size) (some sd) ops
            | none => .error (.unknownSeed c)
          else .error (.unknownOp c i)
    | some sd =>
      match opFor c with
      | some op => scanChars phi total rest (i + c.utf8Size) (some sd) (ops ++ [op])
      | none => .error (.unknownOp c i)

/-- `Parser.applyOperations`: clone the seed, then apply the operators from
right to left. -/
def applyOperations (seed : Polyhedron) (ops : List Op) : Polyhedron :=
  ops.foldr applyOp seed.Clone

/-- `Parser.Parse` / the package-level `Parse`. -/
def parse (phi : Frac) (s : String) : Except ParseError Polyhedron :=
  let cs := trimGo s.toList
  if cs.isEmpty then .error .emptyInput
  else
    match scanChars phi (byteLen cs) cs 0 none [] with
    | .error e => .error e
    | .ok (none, _) => .error .noSeed
    | .ok (some seed, ops) => .ok (applyOperations seed ops)

/-! ### Manifold validator -/

/-- The manifold validation errors, by their structured content. -/
inductive ManifoldIssue where
  | edgeFaceCount (eid n : Nat)
  | vertexFewFaces (vid n : Nat)
  | vertexCycle (vid : Nat)
deriving DecidableEq

/-- `validateVertexManifold`: fewer than three incident faces is an error;
otherwise compare the length of `orderFacesAroundVertex` with the face
count. -/
def Polyhedron.validateVertexManifold (p : Polyhedron) (vid : Nat) :
    Option ManifoldIssue :=
  let n := (p.vertexFaces vid).length
  if n < 3 then some (.vertexFewFaces vid n)
  else if (p.orderFacesAroundVertex vid).length ≠ n then some (.vertexCycle vid)
  else none

/-- `Polyhedron.ValidateManifold`: first failing edge (a face count other
than 1 or 2), then first failing vertex. -/
def Polyhedron.ValidateManifold (p : Polyhedron) : Option ManifoldIssue :=
  match p.edges.findSome? (fun e =>
      let n := (p.edgeFaces e.id).length
      if n ≠ 2 then (if n = 1 then none else some (ManifoldIssue.edgeFaceCount e.id n))
      else none) with
  | some issue => some issue
  | none => p.vertices.findSome? (fun v => p.validateVertexManifold v.id)

end Conway

namespace Conway

/-! ### Definitions used by the verification statements -/

/-- The five seed characters. -/
def isSeedChar (c : Char) : Bool :=
  c = 'T' || c = 'C' || c = 'O' || c = 'D' || c = 'I'

/-- The nine operator characters. -/
def isOpChar (c : Char) : Bool :=
  c = 'd' || c = 'a' || c = 't' || c = 'k' || c = 'j'
    || c = 'o' || c = 'e' || c = 'g' || c = 's'

/-- Modelled from the spec: the grammar `SEED OP* | OP* SEED` — a seed
character first followed by operators, or operators followed by a final seed
character. -/
def specSeedFirstOrLast (cs : List Char) : Bool :=
  match cs with
  | [] => false
  | c :: rest =>
    (isSeedChar c && rest.all isOpChar)
      || (match cs.getLast? with
          | some l => isSeedChar l && cs.dropLast.all isOpChar
          | none => false)

/-- The language the scanner accepts: a non-empty string of operator
characters with exactly one seed character anywhere (`OP* SEED OP*`). -/
def opStarSeedOpStar (cs : List Char) : Bool :=
  !cs.isEmpty && (cs.filter isSeedChar).length == 1
    && cs.all (fun c => isSeedChar c || isOpChar c)

/-- All ways of inserting an element into a list (kernel-computable
building block for permutation enumeration). -/
def insertionsAll {α : Type} (a : α) : List α → List (List α)
  | [] => [[a]]
  | b :: l => (a :: b :: l) :: (insertionsAll a l).map (fun t => b :: t)

/-- All permutations of a list, by structural recursion. -/
def permsOf {α : Type} : List α → List (List α)
  | [] => [[]]
  | a :: l => (permsOf l).flatMap (insertionsAll a)

/-- Modelled from the spec: the faces incident to a vertex "form a single
connected cycle" — some arrangement of all of them is cyclically consecutive,
adjacent faces (including the wrap-around pair) sharing an edge. -/
def specSingleCycle (p : Polyhedron) (vid : Nat) : Bool :=
  (permsOf (p.vertexFaces vid)).any (fun l =>
    (List.range l.length).all (fun i =>
      facesShareEdge (l.getD i ⟨0, [], []⟩) (l.getD ((i + 1) % l.length) ⟨0, [], []⟩)))

/-- Modelled from the spec: the condition under which the spec's
`manifold-invalid` error is said to be raised — an edge with more than two
incident faces, or a vertex whose incident faces do not form a single
cycle. -/
def specManifoldError (p : Polyhedron) : Bool :=
  p.edges.any (fun e => 2 < (p.edgeFaces e.id).length)
    || p.vertices.any (fun v => !specSingleCycle p v.id)

/-- Equality of unordered pairs. -/
def sameTwo (a b : Nat × Nat) : Prop :=
  (a.1 = b.1 ∧ a.2 = b.2) ∨ (a.1 = b.2 ∧ a.2 = b.1)

instance (a b : Nat × Nat) : Decidable (sameTwo a b) :=
  inferInstanceAs (Decidable (_ ∨ _))

/-- The identifiers of the two faces of an edge (defaulting for the
degenerate cases the hypotheses exclude). -/
def Polyhedron.dualPairIds (p : Polyhedron) (e : Edge) : Nat × Nat :=
  (((p.edgeFaces e.id).getD 0 ⟨0, [], []⟩).id, ((p.edgeFaces e.id).getD 1 ⟨0, [], []⟩).id)

/-- The closed-manifold conditions under which the dual count swap is
proved: distinct face identifiers; every edge on exactly two faces; every
vertex on at least three; distinct edges separate distinct face pairs; and
around every vertex the face-ordering traversal returns a genuine cycle —
cyclically consecutive faces are the two faces of some edge. -/
def dualReady (p : Polyhedron) : Prop :=
  (p.faces.map Face.id).Nodup
    ∧ (∀ e ∈ p.edges, (p.edgeFaces e.id).length = 2)
    ∧ (∀ v ∈ p.vertices, 3 ≤ (p.vertexFaces v.id).length)
    ∧ p.edges.Pairwise (fun e1 e2 => ¬ sameTwo (p.dualPairIds e1) (p.dualPairIds e2))
    ∧ (∀ v ∈ p.vertices,
        ∀ fg ∈ cyclicPairs ((p.orderFacesAroundVertex v.id).map Face.id),
          ∃ e ∈ p.edges, sameTwo (p.dualPairIds e) fg)

instance (p : Polyhedron) : Decidable (dualReady p) := by
  unfold dualReady
  infer_instance

/-- The face-centroid vertex insertion of `dual` (the mesh after the first
loop, and the face→dual-vertex assignment list). -/
def dualFvs (p : Polyhedron) : Polyhedron × List (Nat × Nat) :=
  addVertsKeyed (newPolyhedron ("d" ++ p.name)) p.faces Face.id (fun f => p.faceCentroid f)

/-- The face→dual-vertex identifier map of `dual`. -/
def dualFv (p : Polyhedron) (fid : Nat) : Nat := ((dualFvs p).2.lookup fid).getD 0

/-- Structural coherence of a mesh, as guaranteed by the incremental
construction API: distinct identifiers; edges join two distinct existing
vertices; no two edges join the same pair; every face's edge list is
parallel to its vertex list, its `i`-th edge joining the `i`-th and
`(i+1) mod n`-th vertices. -/
def Polyhedron.Coherent (p : Polyhedron) : Prop :=
  (p.vertices.map Vertex.id).Nodup
    ∧ (p.edges.map Edge.id).Nodup
    ∧ (∀ e ∈ p.edges, e.v1 ≠ e.v2
        ∧ e.v1 ∈ p.vertices.map Vertex.id ∧ e.v2 ∈ p.vertices.map Vertex.id)
    ∧ p.edges.Pairwise (fun e1 e2 => ¬ sameTwo (e1.v1, e1.v2) (e2.v1, e2.v2))
    ∧ (∀ f ∈ p.faces, f.edges.length = f.vertices.length
        ∧ (∀ v ∈ f.vertices, v ∈ p.vertices.map Vertex.id)
        ∧ ∀ i < f.edges.length, ∃ e ∈ p.edges, e.id = f.edges.getD i 0
            ∧ sameTwo (e.v1, e.v2) ((cyclicPairs f.vertices).getD i (0, 0)))

instance (p : Polyhedron) : Decidable p.Coherent := by
  unfold Polyhedron.Coherent
  infer_instance

/-- The old-identifier → clone-identifier assignment used by `Clone`. -/
def Polyhedron.cloneIdMap (p : Polyhedron) (vid : Nat) : Nat :=
  (((addVertsKeyed (newPolyhedron p.name) p.vertices Vertex.id Vertex.position).2).lookup vid).getD 0

/-- Projections of a vector and of a mesh centroid into ℚ (for the
normalisation statements). -/
def Vector3.toRatV (v : Vector3) : ℚ × ℚ × ℚ := (v.x.toRat, v.y.toRat, v.z.toRat)

/-- Two tetrahedra sharing exactly one vertex: every edge lies on exactly
two faces and every vertex on at least three, yet the six faces incident to
the shared vertex split into two triangles of mutually adjacent faces with
no adjacency across, so they do not form a single cycle. -/
def twoTetra : Polyhedron :=
  let p0 := newPolyhedron "TwoTetra"
  let s := p0.AddVertex (vec 0 0 0)
  let a1 := s.2.AddVertex (vec 1 0 0)
  let a2 := a1.2.AddVertex (vec 0 1 0)
  let a3 := a2.2.AddVertex (vec 0 0 1)
  let b1 := a3.2.AddVertex (vec (-1) 0 0)
  let b2 := b1.2.AddVertex (vec 0 (-1) 0)
  let b3 := b2.2.AddVertex (vec 0 0 (-1))
  let q := b3.2
  let q := q.AddFace [s.1.id, a1.1.id, a2.1.id]
  let q := q.AddFace [s.1.id, a2.1.id, a3.1.id]
  let q := q.AddFace [s.1.id, a3.1.id, a1.1.id]
  let q := q.AddFace [a1.1.id, a2.1.id, a3.1.id]
  let q := q.AddFace [s.1.id, b1.1.id, b2.1.id]
  let q := q.AddFace [s.1.id, b2.1.id, b3.1.id]
  let q := q.AddFace [s.1.id, b3.1.id, b1.1.id]
  let q := q.AddFace [b1.1.id, b2.1.id, b3.1.id]
  q

/-- A triangle added while only its three vertices existed (so no winding
correction was applied), followed by a fourth vertex placed so that the
stored orientation points inward relative to the full centroid. -/
def lateVertexMesh : Polyhedron :=
  let p0 := newPolyhedron "M"
  let m1 := p0.AddVertex (vec 0 0 0)
  let m2 := m1.2.AddVertex (vec 0 1 0)
  let m3 := m2.2.AddVertex (vec 1 0 0)
  let q := m3.2.AddFace [m1.1.id, m2.1.id, m3.1.id]
  (q.AddVertex (vec 0 0 (-5))).2

/-- Two vertices straddling the origin at distance two: a minimal mesh whose
normalisation scale is the rational 1/2. -/
def segmentMesh : Polyhedron :=
  let p0 := newPolyhedron "Seg"
  let m1 := p0.AddVertex (vec 2 0 0)
  (m1.2.AddVertex (vec (-2) 0 0)).2

end Conway

namespace Conway

/-! ### Lemmas: scalars -/

theorem Frac.den_ne_zero_q (a : Frac) : ((a.den : ℚ)) ≠ 0 := by
  exact_mod_cast Nat.pos_iff_ne_zero.mp a.den_pos

theorem Frac.toRat_ofNat (n : Nat) : (Frac.ofNat n).toRat = n := by
  simp [Frac.toRat, Frac.ofNat]

theorem Frac.toRat_add (a b : Frac) : (a + b).toRat = a.toRat + b.toRat := by
  have ha := a.den_ne_zero_q; have hb := b.den_ne_zero_q
  show (a.add b).toRat = _
  simp only [Frac.toRat, Frac.add]
  field_simp

theorem Frac.toRat_sub (a b : Frac) : (a - b).toRat = a.toRat - b.toRat := by
  have ha := a.den_ne_zero_q; have hb := b.den_ne_zero_q
  show (a.sub b).toRat = _
  simp only [Frac.toRat, Frac.sub]
  field_simp
  ring

theorem Frac.toRat_mul (a b : Frac) : (a * b).toRat = a.toRat * b.toRat := by
  have ha := a.den_ne_zero_q; have hb := b.den_ne_zero_q
  show (a.mul b).toRat = _
  simp only [Frac.toRat, Frac.mul]
  field_simp

theorem Frac.toRat_inv (a : Frac) : a.inv.toRat = a.toRat⁻¹ := by
  by_cases h : a.num = 0
  · simp [Frac.inv, h, Frac.toRat]
  · have ha := a.den_ne_zero_q
    have hnum : ((a.num : ℚ)) ≠ 0 := by exact_mod_cast h
    simp only [Frac.inv, h, dif_neg, not_false_iff, Frac.toRat]
    rcases Int.lt_or_lt_of_ne h with hneg | hpos
    · have hs : Int.sign a.num = -1 := Int.sign_eq_neg_one_of_neg hneg
      have habs : ((a.num.natAbs : ℚ)) = -(a.num : ℚ) := by
        rw [Int.cast_natAbs, Int.cast_abs]
        exact abs_of_neg (by exact_mod_cast hneg)
      rw [hs, habs]
      push_cast
      field_simp
    · have hs : Int.sign a.num = 1 := Int.sign_eq_one_of_pos hpos
      have habs : ((a.num.natAbs : ℚ)) = (a.num : ℚ) := by
        rw [Int.cast_natAbs, Int.cast_abs]
        exact abs_of_pos (by exact_mod_cast hpos)
      rw [hs, habs]
      push_cast
      field_simp

theorem Frac.toRat_div (a b : Frac) : (a / b).toRat = a.toRat / b.toRat := by
  show ((a.mul b.inv) : Frac).toRat = _
  have : (a.mul b.inv) = a * b.inv := rfl
  rw [this, Frac.toRat_mul, Frac.toRat_inv, div_eq_mul_inv]

theorem Frac.lt_iff_toRat (a b : Frac) : a < b ↔ a.toRat < b.toRat := by
  have ha : (0 : ℚ) < (a.den : ℚ) := by exact_mod_cast a.den_pos
  have hb : (0 : ℚ) < (b.den : ℚ) := by exact_mod_cast b.den_pos
  show a.num * (b.den : Int) < b.num * (a.den : Int) ↔ _
  rw [Frac.toRat, Frac.toRat, div_lt_div_iff₀ ha hb]
  constructor
  · intro h; exact_mod_cast h
  · intro h; exact_mod_cast h

theorem Frac.eqv_iff_toRat (a b : Frac) : a.eqv b ↔ a.toRat = b.toRat := by
  have ha : ((a.den : ℚ)) ≠ 0 := a.den_ne_zero_q
  have hb : ((b.den : ℚ)) ≠ 0 := b.den_ne_zero_q
  rw [Frac.eqv, Frac.toRat, Frac.toRat, div_eq_div_iff ha hb]
  constructor
  · intro h; exact_mod_cast h
  · intro h; exact_mod_cast h

end Conway

namespace Conway

/-! ### Lemmas: generic folds -/

/-- An invariant preserved by every step is preserved by the fold. -/
theorem foldlInv {α σ : Type} (step : σ → α → σ) (P : σ → Prop)
    (h : ∀ s a, P s → P (step s a)) :
    ∀ (l : List α) (s : σ), P s → P (l.foldl step s)
  | [], _, hs => hs
  | a :: l, s, hs => foldlInv step P h l (step s a) (h s a hs)

/-- A measure increased by exactly `k` at every step grows by `k·length`. -/
theorem foldlCount {α σ : Type} (step : σ → α → σ) (f : σ → Nat) (k : Nat)
    (h : ∀ s a, f (step s a) = f s + k) :
    ∀ (l : List α) (s : σ), f (l.foldl step s) = f s + k * l.length
  | [], s => by simp
  | a :: l, s => by
    rw [List.foldl_cons, foldlCount step f k h l (step s a), h s a,
      List.length_cons]
    ring

/-- A quantity kept constant by every step is kept constant by the fold. -/
theorem foldlConst {α σ β : Type} (step : σ → α → σ) (f : σ → β)
    (h : ∀ s a, f (step s a) = f s) :
    ∀ (l : List α) (s : σ), f (l.foldl step s) = f s
  | [], _ => rfl
  | a :: l, s => by rw [List.foldl_cons, foldlConst step f h l (step s a), h s a]

/-! ### Lemmas: construction steps -/

theorem AddVertex_snd (p : Polyhedron) (pos : Vector3) :
    (p.AddVertex pos).2 =
      { p with vertices := p.vertices ++ [⟨p.nextID + 1, pos⟩], nextID := p.nextID + 1 } := rfl

theorem AddVertex_name (p : Polyhedron) (pos : Vector3) :
    (p.AddVertex pos).2.name = p.name := rfl

theorem AddVertex_edges (p : Polyhedron) (pos : Vector3) :
    (p.AddVertex pos).2.edges = p.edges := rfl

theorem AddVertex_faces (p : Polyhedron) (pos : Vector3) :
    (p.AddVertex pos).2.faces = p.faces := rfl

theorem AddVertex_vertices (p : Polyhedron) (pos : Vector3) :
    (p.AddVertex pos).2.vertices = p.vertices ++ [⟨p.nextID + 1, pos⟩] := rfl

theorem AddEdge_name (p : Polyhedron) (a b : Nat) :
    (p.AddEdge a b).2.name = p.name := by
  unfold Polyhedron.AddEdge
  cases p.findEdge a b <;> rfl

theorem AddEdge_vertices (p : Polyhedron) (a b : Nat) :
    (p.AddEdge a b).2.vertices = p.vertices := by
  unfold Polyhedron.AddEdge
  cases p.findEdge a b <;> rfl

theorem AddEdge_faces (p : Polyhedron) (a b : Nat) :
    (p.AddEdge a b).2.faces = p.faces := by
  unfold Polyhedron.AddEdge
  cases p.findEdge a b <;> rfl

theorem AddEdge_of_found (p : Polyhedron) (a b : Nat)
    (h : (p.findEdge a b).isSome) : (p.AddEdge a b).2 = p := by
  unfold Polyhedron.AddEdge
  cases he : p.findEdge a b with
  | some e => rfl
  | none => rw [he] at h; exact absurd h (by simp)

theorem AddEdge_of_none (p : Polyhedron) (a b : Nat)
    (h : p.findEdge a b = none) :
    (p.AddEdge a b).2.edges = p.edges ++ [⟨p.nextID + 1, a, b⟩] := by
  unfold Polyhedron.AddEdge
  rw [h]

theorem AddEdge_edges_mono (p : Polyhedron) (a b : Nat) {e : Edge}
    (h : e ∈ p.edges) : e ∈ (p.AddEdge a b).2.edges := by
  unfold Polyhedron.AddEdge
  cases p.findEdge a b with
  | some d => exact h
  | none => exact List.mem_append_left _ h

theorem AddEdge_edges_sub (p : Polyhedron) (a b : Nat) {e : Edge}
    (h : e ∈ (p.AddEdge a b).2.edges) :
    e ∈ p.edges ∨ (e.v1 = a ∧ e.v2 = b) := by
  revert h
  unfold Polyhedron.AddEdge
  cases p.findEdge a b with
  | some d => exact fun h => Or.inl h
  | none =>
    intro h
    rcases List.mem_append.mp h with h1 | h2
    · exact Or.inl h1
    · right
      rcases List.mem_singleton.mp h2 with rfl
      exact ⟨rfl, rfl⟩

/-- Characterisation of the pair index. -/
theorem findEdge_isSome_iff (p : Polyhedron) (a b : Nat) :
    (p.findEdge a b).isSome ↔ ∃ e ∈ p.edges, sameTwo (e.v1, e.v2) (a, b) := by
  rw [Polyhedron.findEdge, List.find?_isSome]
  constructor
  · rintro ⟨e, he, hpred⟩
    refine ⟨e, he, ?_⟩
    simp only [Bool.or_eq_true, Bool.and_eq_true, beq_iff_eq] at hpred
    rcases hpred with ⟨h1, h2⟩ | ⟨h1, h2⟩
    · exact Or.inl ⟨h1, h2⟩
    · exact Or.inr ⟨h1, h2⟩
  · rintro ⟨e, he, hpair⟩
    refine ⟨e, he, ?_⟩
    simp only [Bool.or_eq_true, Bool.and_eq_true, beq_iff_eq]
    rcases hpair with ⟨h1, h2⟩ | ⟨h1, h2⟩
    · exact Or.inl ⟨h1, h2⟩
    · exact Or.inr ⟨h1, h2⟩

theorem sameTwo_symm {a b : Nat × Nat} (h : sameTwo a b) : sameTwo b a := by
  rcases h with ⟨h1, h2⟩ | ⟨h1, h2⟩
  · exact Or.inl ⟨h1.symm, h2.symm⟩
  · exact Or.inr ⟨h2.symm, h1.symm⟩

theorem sameTwo_comm (a b : Nat) : sameTwo (a, b) (b, a) := Or.inr ⟨rfl, rfl⟩

theorem sameTwo_refl (a : Nat × Nat) : sameTwo a a := Or.inl ⟨rfl, rfl⟩

theorem sameTwo_swap_right {x : Nat × Nat} {a b : Nat} (h : sameTwo x (a, b)) :
    sameTwo x (b, a) := by
  rcases h with ⟨h1, h2⟩ | ⟨h1, h2⟩
  · exact Or.inr ⟨h1, h2⟩
  · exact Or.inl ⟨h1, h2⟩

theorem findEdge_symm_isSome (p : Polyhedron) (a b : Nat) :
    (p.findEdge a b).isSome ↔ (p.findEdge b a).isSome := by
  rw [findEdge_isSome_iff, findEdge_isSome_iff]
  constructor
  · rintro ⟨e, he, hp⟩
    exact ⟨e, he, sameTwo_swap_right hp⟩
  · rintro ⟨e, he, hp⟩
    exact ⟨e, he, sameTwo_swap_right hp⟩

theorem AddEdge_findEdge_self (p : Polyhedron) (a b : Nat) :
    ((p.AddEdge a b).2.findEdge a b).isSome := by
  unfold Polyhedron.AddEdge
  cases he : p.findEdge a b with
  | some e => simpa using congrArg Option.isSome he
  | none =>
    rw [findEdge_isSome_iff]
    exact ⟨⟨p.nextID + 1, a, b⟩, by simp, Or.inl ⟨rfl, rfl⟩⟩

theorem findEdge_mono_AddEdge (p : Polyhedron) (a b x y : Nat)
    (h : (p.findEdge x y).isSome) : ((p.AddEdge a b).2.findEdge x y).isSome := by
  rw [findEdge_isSome_iff] at h ⊢
  rcases h with ⟨e, he, hp⟩
  exact ⟨e, AddEdge_edges_mono p a b he, hp⟩

end Conway

namespace Conway

/-! ### Lemmas: cyclic pairs and winding -/

theorem cyclicPairs_length (l : List Nat) : (cyclicPairs l).length = l.length := by
  simp [cyclicPairs]

theorem mem_cyclicPairs_iff {l : List Nat} {ab : Nat × Nat} :
    ab ∈ cyclicPairs l
      ↔ ∃ i, i < l.length ∧ ab = (l.getD i 0, l.getD ((i + 1) % l.length) 0) := by
  simp only [cyclicPairs, List.mem_map, List.mem_range]
  constructor
  · rintro ⟨i, hi, h⟩
    exact ⟨i, hi, h.symm⟩
  · rintro ⟨i, hi, h⟩
    exact ⟨i, hi, h.symm⟩

theorem getD_reverse {l : List Nat} {i : Nat} (h : i < l.length) :
    l.reverse.getD i 0 = l.getD (l.length - 1 - i) 0 := by
  have h1 : i < l.reverse.length := by simpa using h
  have h2 : l.length - 1 - i < l.length := by omega
  rw [List.getD_eq_getElem l.reverse 0 h1, List.getD_eq_getElem l 0 h2]
  rw [List.getElem_reverse]

/-- A cyclic pair of the reversed cycle is a reversed cyclic pair of the
cycle. -/
theorem cyclicPairs_reverse {l : List Nat} {x y : Nat}
    (h : (x, y) ∈ cyclicPairs l.reverse) : (y, x) ∈ cyclicPairs l := by
  rw [mem_cyclicPairs_iff] at h ⊢
  rcases h with ⟨i, hi, hxy⟩
  rw [List.length_reverse] at hi
  have hn : 0 < l.length := by omega
  rcases Nat.lt_or_ge (i + 1) l.length with hlt | hge
  · -- interior step: the reversed pair at i maps to the pair at n-2-i
    refine ⟨l.length - 2 - i, by omega, ?_⟩
    have e1 : (i + 1) % l.reverse.length = i + 1 := by
      rw [List.length_reverse]; exact Nat.mod_eq_of_lt hlt
    rw [e1] at hxy
    have gx : x = l.getD (l.length - 1 - i) 0 := by
      have := getD_reverse (l := l) (i := i) hi
      rw [← this]; exact congrArg Prod.fst hxy
    have gy : y = l.getD (l.length - 1 - (i + 1)) 0 := by
      have := getD_reverse (l := l) (i := i + 1) hlt
      rw [← this]; exact congrArg Prod.snd hxy
    have e2 : (l.length - 2 - i + 1) % l.length = l.length - 1 - i := by
      have : l.length - 2 - i + 1 = l.length - 1 - i := by omega
      rw [this]; exact Nat.mod_eq_of_lt (by omega)
    rw [e2]
    have e3 : l.length - 1 - (i + 1) = l.length - 2 - i := by omega
    rw [gy, gx, e3]
  · -- wrap-around: i = n-1; the reversed pair is (l[0], l[n-1]) swapped
    have hieq : i = l.length - 1 := by omega
    refine ⟨l.length - 1, by omega, ?_⟩
    have e1 : (i + 1) % l.reverse.length = 0 := by
      rw [List.length_reverse, hieq]
      have : l.length - 1 + 1 = l.length := by omega
      rw [this, Nat.mod_self]
    rw [e1] at hxy
    have gx : x = l.getD (l.length - 1 - i) 0 := by
      have := getD_reverse (l := l) (i := i) hi
      rw [← this]; exact congrArg Prod.fst hxy
    have gy : y = l.getD (l.length - 1 - 0) 0 := by
      have := getD_reverse (l := l) (i := 0) (by omega)
      rw [← this]; exact congrArg Prod.snd hxy
    have e2 : (l.length - 1 + 1) % l.length = 0 := by
      have : l.length - 1 + 1 = l.length := by omega
      rw [this, Nat.mod_self]
    rw [e2]
    rw [Nat.sub_zero] at gy
    have hx0 : l.length - 1 - i = 0 := by omega
    rw [hx0] at gx
    rw [gy, gx]

theorem ensureCCW_cases (p : Polyhedron) (vs : List Nat) (c : Vector3) :
    ensureCounterClockwise p vs c = vs ∨ ensureCounterClockwise p vs c = vs.reverse := by
  unfold ensureCounterClockwise
  split
  · exact Or.inl rfl
  · cases calculateFaceNormal p vs with
    | none => exact Or.inl rfl
    | some n =>
      simp only
      split
      · exact Or.inr rfl
      · exact Or.inl rfl

theorem storedVerts_cases (p : Polyhedron) (vs : List Nat) :
    p.storedVerts vs = vs ∨ p.storedVerts vs = vs.reverse := by
  unfold Polyhedron.storedVerts
  split
  · exact ensureCCW_cases p vs p.calculateCentroid
  · exact Or.inl rfl

theorem storedVerts_length (p : Polyhedron) (vs : List Nat) :
    (p.storedVerts vs).length = vs.length := by
  rcases storedVerts_cases p vs with h | h <;> rw [h]
  exact List.length_reverse vs

/-! ### Lemmas: AddFace -/

theorem edgeFold_fst_vertices (pl : List (Nat × Nat)) (m : Polyhedron) (acc : List Nat) :
    (pl.foldl addFaceEdgeStep (m, acc)).1.vertices = m.vertices := by
  have := foldlConst addFaceEdgeStep (fun st => st.1.vertices)
    (fun s ab => AddEdge_vertices s.1 ab.1 ab.2) pl (m, acc)
  exact this

theorem edgeFold_fst_faces (pl : List (Nat × Nat)) (m : Polyhedron) (acc : List Nat) :
    (pl.foldl addFaceEdgeStep (m, acc)).1.faces = m.faces := by
  exact foldlConst addFaceEdgeStep (fun st => st.1.faces)
    (fun s ab => AddEdge_faces s.1 ab.1 ab.2) pl (m, acc)

theorem edgeFold_fst_name (pl : List (Nat × Nat)) (m : Polyhedron) (acc : List Nat) :
    (pl.foldl addFaceEdgeStep (m, acc)).1.name = m.name := by
  exact foldlConst addFaceEdgeStep (fun st => st.1.name)
    (fun s ab => AddEdge_name s.1 ab.1 ab.2) pl (m, acc)

theorem edgeFold_fst_of_present :
    ∀ (pl : List (Nat × Nat)) (m : Polyhedron) (acc : List Nat),
      (∀ ab ∈ pl, (m.findEdge ab.1 ab.2).isSome) →
      (pl.foldl addFaceEdgeStep (m, acc)).1 = m
  | [], m, acc, _ => rfl
  | ab :: pl, m, acc, h => by
    rw [List.foldl_cons]
    have hab : (m.findEdge ab.1 ab.2).isSome := h ab (List.mem_cons_self _ _)
    have hstep : addFaceEdgeStep (m, acc) ab
        = ((m.AddEdge ab.1 ab.2).2, acc ++ [(m.AddEdge ab.1 ab.2).1.id]) := rfl
    have h2 : (m.AddEdge ab.1 ab.2).2 = m := AddEdge_of_found m ab.1 ab.2 hab
    rw [hstep, h2]
    exact edgeFold_fst_of_present pl m _ (fun cd hcd => h cd (List.mem_cons_of_mem _ hcd))

theorem edgeFold_findEdge_mono (pl : List (Nat × Nat)) (m : Polyhedron)
    (acc : List Nat) (x y : Nat) (h : (m.findEdge x y).isSome) :
    ((pl.foldl addFaceEdgeStep (m, acc)).1.findEdge x y).isSome := by
  exact foldlInv addFaceEdgeStep (fun st => (st.1.findEdge x y).isSome)
    (fun s ab hs => findEdge_mono_AddEdge s.1 ab.1 ab.2 x y hs) pl (m, acc) h

theorem edgeFold_present_after :
    ∀ (pl : List (Nat × Nat)) (m : Polyhedron) (acc : List Nat),
      ∀ ab ∈ pl, ((pl.foldl addFaceEdgeStep (m, acc)).1.findEdge ab.1 ab.2).isSome
  | [], _, _, ab, hab => absurd hab (List.not_mem_nil ab)
  | cd :: pl, m, acc, ab, hab => by
    rw [List.foldl_cons]
    rcases List.mem_cons.mp hab with rfl | htail
    · have h1 : ((addFaceEdgeStep (m, acc) ab).1.findEdge ab.1 ab.2).isSome := by
        unfold addFaceEdgeStep
        exact AddEdge_findEdge_self m ab.1 ab.2
      exact edgeFold_findEdge_mono pl _ _ ab.1 ab.2 h1
    · exact edgeFold_present_after pl _ _ ab htail

theorem edgeFold_edges_mono (pl : List (Nat × Nat)) (m : Polyhedron)
    (acc : List Nat) {e : Edge} (h : e ∈ m.edges) :
    e ∈ (pl.foldl addFaceEdgeStep (m, acc)).1.edges := by
  exact foldlInv addFaceEdgeStep (fun st => e ∈ st.1.edges)
    (fun s ab hs => AddEdge_edges_mono s.1 ab.1 ab.2 hs) pl (m, acc) h

theorem edgeFold_edges_sub :
    ∀ (pl : List (Nat × Nat)) (m : Polyhedron) (acc : List Nat),
      ∀ e ∈ (pl.foldl addFaceEdgeStep (m, acc)).1.edges,
        e ∈ m.edges ∨ ∃ ab ∈ pl, e.v1 = ab.1 ∧ e.v2 = ab.2
  | [], m, acc, e, he => Or.inl he
  | cd :: pl, m, acc, e, he => by
    rw [List.foldl_cons] at he
    rcases edgeFold_edges_sub pl _ _ e he with hin | ⟨ab, hab, hv⟩
    · rcases AddEdge_edges_sub m cd.1 cd.2 hin with h1 | h2
      · exact Or.inl h1
      · exact Or.inr ⟨cd, List.mem_cons_self _ _, h2⟩
    · exact Or.inr ⟨ab, List.mem_cons_of_mem _ hab, hv⟩

theorem AddFace_vertices (p : Polyhedron) (vs : List Nat) :
    (p.AddFace vs).vertices = p.vertices := by
  unfold Polyhedron.AddFace
  exact edgeFold_fst_vertices _ _ _

theorem AddFace_name (p : Polyhedron) (vs : List Nat) :
    (p.AddFace vs).name = p.name := by
  unfold Polyhedron.AddFace
  exact edgeFold_fst_name _ _ _

theorem AddFace_faces_shape (p : Polyhedron) (vs : List Nat) :
    ∃ eids, (p.AddFace vs).faces
      = p.faces ++ [⟨p.nextID + 1, p.storedVerts vs, eids⟩] := by
  refine ⟨((cyclicPairs (p.storedVerts vs)).foldl addFaceEdgeStep
    ({ p with nextID := p.nextID + 1 }, [])).2, ?_⟩
  show ((cyclicPairs (p.storedVerts vs)).foldl addFaceEdgeStep
      ({ p with nextID := p.nextID + 1 }, [])).1.faces
    ++ [⟨p.nextID + 1, p.storedVerts vs, _⟩] = _
  rw [edgeFold_fst_faces]

theorem AddFace_faces_length (p : Polyhedron) (vs : List Nat) :
    (p.AddFace vs).faces.length = p.faces.length + 1 := by
  rcases AddFace_faces_shape p vs with ⟨eids, h⟩
  rw [h, List.length_append, List.length_singleton]

theorem AddFace_faces_map_vertices (p : Polyhedron) (vs : List Nat) :
    (p.AddFace vs).faces.map Face.vertices
      = p.faces.map Face.vertices ++ [p.storedVerts vs] := by
  rcases AddFace_faces_shape p vs with ⟨eids, h⟩
  rw [h, List.map_append, List.map_singleton]

theorem findEdge_nextID (p : Polyhedron) (n : Nat) (a b : Nat) :
    ({ p with nextID := n } : Polyhedron).findEdge a b = p.findEdge a b := rfl

theorem AddFace_edges_of_present (p : Polyhedron) (vs : List Nat)
    (h : ∀ ab ∈ cyclicPairs (p.storedVerts vs), (p.findEdge ab.1 ab.2).isSome) :
    (p.AddFace vs).edges = p.edges := by
  show ((cyclicPairs (p.storedVerts vs)).foldl addFaceEdgeStep
      ({ p with nextID := p.nextID + 1 }, [])).1.edges = p.edges
  rw [edgeFold_fst_of_present (cyclicPairs (p.storedVerts vs))
    { p with nextID := p.nextID + 1 } [] (fun ab hab => h ab hab)]

theorem AddFace_findEdge_after (p : Polyhedron) (vs : List Nat) {ab : Nat × Nat}
    (hab : ab ∈ cyclicPairs (p.storedVerts vs)) :
    ((p.AddFace vs).findEdge ab.1 ab.2).isSome := by
  unfold Polyhedron.AddFace
  exact edgeFold_present_after _ _ _ ab hab

theorem AddFace_findEdge_mono (p : Polyhedron) (vs : List Nat) (x y : Nat)
    (h : (p.findEdge x y).isSome) : ((p.AddFace vs).findEdge x y).isSome := by
  unfold Polyhedron.AddFace
  exact edgeFold_findEdge_mono _ _ _ x y h

theorem AddFace_edges_mono (p : Polyhedron) (vs : List Nat) {e : Edge}
    (h : e ∈ p.edges) : e ∈ (p.AddFace vs).edges := by
  unfold Polyhedron.AddFace
  exact edgeFold_edges_mono _ _ _ h

theorem AddFace_edges_sub (p : Polyhedron) (vs : List Nat) :
    ∀ e ∈ (p.AddFace vs).edges,
      e ∈ p.edges ∨ ∃ ab ∈ cyclicPairs (p.storedVerts vs), e.v1 = ab.1 ∧ e.v2 = ab.2 := by
  intro e he
  have := edgeFold_edges_sub (cyclicPairs (p.storedVerts vs))
    { p with nextID := p.nextID + 1 } [] e he
  exact this

/-! ### Lemmas: Normalize -/

theorem centered_parts (p : Polyhedron) :
    p.centered.faces = p.faces ∧ p.centered.edges = p.edges
      ∧ p.centered.name = p.name
      ∧ p.centered.vertices.length = p.vertices.length := by
  refine ⟨rfl, rfl, rfl, ?_⟩
  simp [Polyhedron.centered]

theorem normalizeWith_faces (p : Polyhedron) (s : Frac) :
    (p.normalizeWith s).faces = p.faces := by
  simp only [Polyhedron.normalizeWith]
  split
  · exact (centered_parts p).1
  · exact (centered_parts p).1

theorem normalizeWith_edges (p : Polyhedron) (s : Frac) :
    (p.normalizeWith s).edges = p.edges := by
  simp only [Polyhedron.normalizeWith]
  split
  · exact (centered_parts p).2.1
  · exact (centered_parts p).2.1

theorem normalizeWith_name (p : Polyhedron) (s : Frac) :
    (p.normalizeWith s).name = p.name := by
  simp only [Polyhedron.normalizeWith]
  split
  · exact (centered_parts p).2.2.1
  · exact (centered_parts p).2.2.1

theorem normalizeWith_vertices_length (p : Polyhedron) (s : Frac) :
    (p.normalizeWith s).vertices.length = p.vertices.length := by
  simp only [Polyhedron.normalizeWith]
  split
  · simpa using (centered_parts p).2.2.2
  · exact (centered_parts p).2.2.2

theorem Normalize_faces (p : Polyhedron) : p.Normalize.faces = p.faces :=
  normalizeWith_faces p _

theorem Normalize_edges (p : Polyhedron) : p.Normalize.edges = p.edges :=
  normalizeWith_edges p _

theorem Normalize_name (p : Polyhedron) : p.Normalize.name = p.name :=
  normalizeWith_name p _

theorem Normalize_vertices_length (p : Polyhedron) :
    p.Normalize.vertices.length = p.vertices.length :=
  normalizeWith_vertices_length p _

theorem Normalize_counts (p : Polyhedron) : p.Normalize.counts = p.counts := by
  unfold Polyhedron.counts
  rw [Normalize_faces, Normalize_edges, Normalize_vertices_length]

end Conway

namespace Conway

/-! ### Lemmas: keyed vertex addition -/

theorem addVertsKeyedAux {α : Type} (key : α → Nat) (pos : α → Vector3) :
    ∀ (items : List α) (m0 : Polyhedron) (acc : List (Nat × Nat)),
      (items.foldl (addVertsKeyedStep key pos) (m0, acc)).1.vertices
          = m0.vertices ++ List.zipWith (fun id a => Vertex.mk id (pos a))
              (List.range' (m0.nextID + 1) items.length) items
        ∧ (items.foldl (addVertsKeyedStep key pos) (m0, acc)).1.nextID
          = m0.nextID + items.length
        ∧ (items.foldl (addVertsKeyedStep key pos) (m0, acc)).2
          = acc ++ (items.map key).zip (List.range' (m0.nextID + 1) items.length)
        ∧ (items.foldl (addVertsKeyedStep key pos) (m0, acc)).1.edges = m0.edges
        ∧ (items.foldl (addVertsKeyedStep key pos) (m0, acc)).1.faces = m0.faces
        ∧ (items.foldl (addVertsKeyedStep key pos) (m0, acc)).1.name = m0.name
  | [], m0, acc => by simp
  | a :: items, m0, acc => by
    rw [List.foldl_cons]
    have hstep : addVertsKeyedStep key pos (m0, acc) a
        = ((m0.AddVertex (pos a)).2, acc ++ [(key a, m0.nextID + 1)]) := rfl
    rw [hstep]
    have ih := addVertsKeyedAux key pos items (m0.AddVertex (pos a)).2
      (acc ++ [(key a, m0.nextID + 1)])
    have hv : (m0.AddVertex (pos a)).2.vertices
        = m0.vertices ++ [⟨m0.nextID + 1, pos a⟩] := rfl
    have hn : (m0.AddVertex (pos a)).2.nextID = m0.nextID + 1 := rfl
    have he : (m0.AddVertex (pos a)).2.edges = m0.edges := rfl
    have hf : (m0.AddVertex (pos a)).2.faces = m0.faces := rfl
    have hm : (m0.AddVertex (pos a)).2.name = m0.name := rfl
    rcases ih with ⟨i1, i2, i3, i4, i5, i6⟩
    refine ⟨?_, ?_, ?_, ?_, ?_, ?_⟩
    · rw [i1, hv, hn]
      rw [List.length_cons, List.range'_succ, List.zipWith_cons_cons,
        List.append_assoc]
      rfl
    · rw [i2, hn, List.length_cons]
      omega
    · rw [i3, hn, List.length_cons, List.map_cons, List.range'_succ,
        List.zip_cons_cons, List.append_assoc]
      rfl
    · rw [i4, he]
    · rw [i5, hf]
    · rw [i6, hm]

theorem addVertsKeyed_spec {α : Type} (m0 : Polyhedron) (items : List α)
    (key : α → Nat) (pos : α → Vector3) :
    (addVertsKeyed m0 items key pos).1.vertices
        = m0.vertices ++ List.zipWith (fun id a => Vertex.mk id (pos a))
            (List.range' (m0.nextID + 1) items.length) items
      ∧ (addVertsKeyed m0 items key pos).1.nextID = m0.nextID + items.length
      ∧ (addVertsKeyed m0 items key pos).2
        = (items.map key).zip (List.range' (m0.nextID + 1) items.length)
      ∧ (addVertsKeyed m0 items key pos).1.edges = m0.edges
      ∧ (addVertsKeyed m0 items key pos).1.faces = m0.faces
      ∧ (addVertsKeyed m0 items key pos).1.name = m0.name := by
  have := addVertsKeyedAux key pos items m0 []
  simpa [addVertsKeyed] using this

theorem addVertsKeyed_vertices_length {α : Type} (m0 : Polyhedron) (items : List α)
    (key : α → Nat) (pos : α → Vector3) :
    (addVertsKeyed m0 items key pos).1.vertices.length
      = m0.vertices.length + items.length := by
  rw [(addVertsKeyed_spec m0 items key pos).1, List.length_append,
    List.length_zipWith, List.length_range']
  simp

/-! ### Lemmas: names of operator results -/

theorem foldl_name {α : Type} (step : Polyhedron → α → Polyhedron)
    (h : ∀ m a, (step m a).name = m.name) (l : List α) (m : Polyhedron) :
    (l.foldl step m).name = m.name :=
  foldlConst step (fun s => s.name) h l m

theorem foldl_name_pair {α β : Type} (step : (Polyhedron × β) → α → (Polyhedron × β))
    (h : ∀ s a, (step s a).1.name = s.1.name) (l : List α) (s : Polyhedron × β) :
    ((l.foldl step s).1).name = s.1.name :=
  foldlConst step (fun s => s.1.name) h l s

theorem dualEdgeStep_name (p : Polyhedron) (fv : Nat → Nat) (m : Polyhedron) (e : Edge) :
    (dualEdgeStep p fv m e).name = m.name := by
  simp only [dualEdgeStep]
  split
  · exact AddEdge_name _ _ _
  · rfl

theorem dualVertexStep_name (p : Polyhedron) (fv : Nat → Nat) (m : Polyhedron) (v : Vertex) :
    (dualVertexStep p fv m v).name = m.name := by
  unfold dualVertexStep
  split
  · exact AddFace_name _ _
  · rfl

theorem amboFaceStep_name (ev : Nat → Nat) (m : Polyhedron) (f : Face) :
    (amboFaceStep ev m f).name = m.name := AddFace_name _ _

theorem amboVertexStep_name (p : Polyhedron) (ev : Nat → Nat) (m : Polyhedron) (v : Vertex) :
    (amboVertexStep p ev m v).name = m.name := by
  unfold amboVertexStep
  split
  · exact AddFace_name _ _
  · rfl

theorem kisTriangleStep_name (apex : Nat) (m : Polyhedron) (ab : Nat × Nat) :
    (kisTriangleStep apex m ab).name = m.name := AddFace_name _ _

theorem kisFaceStep_name (p : Polyhedron) (vmap : Nat → Nat) (m : Polyhedron) (f : Face) :
    (kisFaceStep p vmap m f).name = m.name := by
  simp only [kisFaceStep]
  rw [foldl_name _ (kisTriangleStep_name _)]
  rfl

theorem dualOp_name (p : Polyhedron) : (dualOp p).name = "d" ++ p.name := by
  simp only [dualOp]
  rw [Normalize_name]
  rw [foldl_name _ (dualVertexStep_name p _)]
  rw [foldl_name _ (dualEdgeStep_name p _)]
  exact (addVertsKeyed_spec _ _ _ _).2.2.2.2.2

theorem amboOp_name (p : Polyhedron) : (amboOp p).name = "a" ++ p.name := by
  simp only [amboOp]
  rw [Normalize_name]
  rw [foldl_name _ (amboVertexStep_name p _)]
  rw [foldl_name _ (amboFaceStep_name _)]
  exact (addVertsKeyed_spec _ _ _ _).2.2.2.2.2

theorem kisOp_name (p : Polyhedron) : (kisOp p).name = "k" ++ p.name := by
  simp only [kisOp]
  rw [Normalize_name]
  rw [foldl_name _ (kisFaceStep_name p _)]
  exact (addVertsKeyed_spec _ _ _ _).2.2.2.2.2

theorem truncEdgeStep_name (p : Polyhedron) (t : Frac)
    (st : Polyhedron × List ((Nat × Nat) × Nat)) (e : Edge) :
    (truncEdgeStep p t st e).1.name = st.1.name := rfl

theorem truncFaceStep_name (p : Polyhedron) (ev : Nat × Nat → Option Nat)
    (m : Polyhedron) (f : Face) : (truncFaceStep p ev m f).name = m.name := by
  simp only [truncFaceStep]
  split
  · exact AddFace_name _ _
  · rfl

theorem truncVertexStep_name (p : Polyhedron) (ev : Nat × Nat → Option Nat)
    (m : Polyhedron) (v : Vertex) : (truncVertexStep p ev m v).name = m.name := by
  simp only [truncVertexStep]
  split
  · exact AddFace_name _ _
  · rfl

theorem truncateOp_name (p : Polyhedron) : (truncateOp p).name = "t" ++ p.name := by
  simp only [truncateOp]
  rw [Normalize_name]
  rw [foldl_name _ (truncVertexStep_name p _)]
  rw [foldl_name _ (truncFaceStep_name p _)]
  rw [foldl_name_pair _ (truncEdgeStep_name p _)]
  rfl

end Conway

namespace Conway

theorem foldl_vertices {α : Type} (step : Polyhedron → α → Polyhedron)
    (h : ∀ m a, (step m a).vertices = m.vertices) (l : List α) (m : Polyhedron) :
    (l.foldl step m).vertices = m.vertices :=
  foldlConst step (fun s => s.vertices) h l m

theorem foldl_faces {α : Type} (step : Polyhedron → α → Polyhedron)
    (h : ∀ m a, (step m a).faces = m.faces) (l : List α) (m : Polyhedron) :
    (l.foldl step m).faces = m.faces :=
  foldlConst step (fun s => s.faces) h l m

theorem foldl_edges {α : Type} (step : Polyhedron → α → Polyhedron)
    (h : ∀ m a, (step m a).edges = m.edges) (l : List α) (m : Polyhedron) :
    (l.foldl step m).edges = m.edges :=
  foldlConst step (fun s => s.edges) h l m

theorem joinOp_name (p : Polyhedron) : (joinOp p).name = "ad" ++ p.name := by
  show (amboOp (dualOp p)).name = _
  rw [amboOp_name, dualOp_name, ← String.append_assoc]
  rfl

theorem gyroOp_name (p : Polyhedron) : (gyroOp p).name = "da" ++ p.name := by
  show (dualOp (amboOp p)).name = _
  rw [dualOp_name, amboOp_name, ← String.append_assoc]
  rfl

theorem orthoOp_name (p : Polyhedron) : (orthoOp p).name = "adad" ++ p.name := by
  show (joinOp (joinOp p)).name = _
  rw [joinOp_name, joinOp_name, ← String.append_assoc]
  rfl

theorem expandOp_name (p : Polyhedron) : (expandOp p).name = "aa" ++ p.name := by
  show (amboOp (amboOp p)).name = _
  rw [amboOp_name, amboOp_name, ← String.append_assoc]
  rfl

theorem snubOp_name (p : Polyhedron) : (snubOp p).name = "dda" ++ p.name := by
  show (dualOp (gyroOp p)).name = _
  rw [dualOp_name, gyroOp_name, ← String.append_assoc]
  rfl

/-- C3 (amended): the primitive operators dual, ambo, truncate and kis
prefix their one-character symbol to the input mesh's name; the compound
operators, implemented as compositions, prefix the concatenated symbols of
the primitives they expand to — "ad" for join, "adad" for ortho, "aa" for
expand, "da" for gyro, "dda" for snub — not their own symbol. -/
theorem operator_output_names (p : Polyhedron) :
    (dualOp p).name = "d" ++ p.name
  ∧ (amboOp p).name = "a" ++ p.name
  ∧ (truncateOp p).name = "t" ++ p.name
  ∧ (kisOp p).name = "k" ++ p.name
  ∧ (joinOp p).name = "ad" ++ p.name
  ∧ (orthoOp p).name = "adad" ++ p.name
  ∧ (expandOp p).name = "aa" ++ p.name
  ∧ (gyroOp p).name = "da" ++ p.name
  ∧ (snubOp p).name = "dda" ++ p.name :=
  ⟨dualOp_name p, amboOp_name p, truncateOp_name p, kisOp_name p, joinOp_name p,
    orthoOp_name p, expandOp_name p, gyroOp_name p, snubOp_name p⟩

/-- C3 counterexample: gyro applied to a mesh named "N" yields a mesh named
"daN" (dual of ambo), not "gN" as the claim requires. -/
theorem gyro_name_not_symbol_prefixed :
    (gyroOp (newPolyhedron "N")).name = "daN"
      ∧ ("daN" : String) ≠ "gN" := by
  constructor
  · rw [gyroOp_name]
    rfl
  · decide

/-! ### C8: kis counts -/

theorem kisTriangleStep_vertices (apex : Nat) (m2 : Polyhedron) (ab : Nat × Nat) :
    (kisTriangleStep apex m2 ab).vertices = m2.vertices := AddFace_vertices _ _

theorem kisFaceStep_vertices_length (p : Polyhedron) (vmap : Nat → Nat)
    (m : Polyhedron) (f : Face) :
    (kisFaceStep p vmap m f).vertices.length = m.vertices.length + 1 := by
  simp only [kisFaceStep]
  rw [foldl_vertices _ (kisTriangleStep_vertices _)]
  rw [AddVertex_vertices, List.length_append]
  rfl

theorem kisTriangleStep_triangles (apex : Nat) (s : Polyhedron) (ab : Nat × Nat)
    (hs : ∀ g ∈ s.faces, g.vertices.length = 3) :
    ∀ g ∈ (kisTriangleStep apex s ab).faces, g.vertices.length = 3 := by
  intro g hg
  rcases AddFace_faces_shape s [ab.1, ab.2, apex] with ⟨eids, hfs⟩
  have hg2 : g ∈ s.faces ++ [⟨s.nextID + 1, s.storedVerts [ab.1, ab.2, apex], eids⟩] := by
    rw [← hfs]
    exact hg
  rcases List.mem_append.mp hg2 with hold | hnew
  · exact hs g hold
  · rcases List.mem_singleton.mp hnew with rfl
    simp only
    rw [storedVerts_length]
    rfl

theorem kisFaceStep_triangles (p : Polyhedron) (vmap : Nat → Nat)
    (m : Polyhedron) (f : Face)
    (h : ∀ g ∈ m.faces, g.vertices.length = 3) :
    ∀ g ∈ (kisFaceStep p vmap m f).faces, g.vertices.length = 3 := by
  simp only [kisFaceStep]
  refine foldlInv (kisTriangleStep _)
    (fun m2 => ∀ g ∈ m2.faces, g.vertices.length = 3)
    (fun s ab hs => kisTriangleStep_triangles _ s ab hs) (cyclicPairs _) _ ?base
  case base =>
    intro g hg
    exact h g hg

theorem kisOp_vertex_count (p : Polyhedron) :
    (kisOp p).vertices.length = p.vertices.length + p.faces.length := by
  simp only [kisOp]
  rw [Normalize_vertices_length]
  rw [foldlCount (kisFaceStep p _) (fun m => m.vertices.length) 1
    (fun m f => kisFaceStep_vertices_length p _ m f) p.faces _]
  rw [addVertsKeyed_vertices_length]
  show [].length + p.vertices.length + 1 * p.faces.length = _
  simp only [List.length_nil]
  omega

theorem kisOp_triangles (p : Polyhedron) :
    ∀ g ∈ (kisOp p).faces, g.vertices.length = 3 := by
  intro g hg
  simp only [kisOp] at hg
  rw [Normalize_faces] at hg
  refine foldlInv (kisFaceStep p _)
    (fun m => ∀ g ∈ m.faces, g.vertices.length = 3)
    (fun m f hm => kisFaceStep_triangles p _ m f hm) p.faces _ ?base g hg
  case base =>
    intro g2 hg2
    rw [(addVertsKeyed_spec _ _ _ _).2.2.2.2.1] at hg2
    exact absurd hg2 (List.not_mem_nil g2)

/-- C8: for every mesh `P`, `kis P` has `|V(P)| + |F(P)|` vertices — one
copy of every input vertex plus one apex per face — and every face of
`kis P` is a triangle (its vertex list has exactly three entries). -/
theorem kis_vertex_count_and_triangles (p : Polyhedron) :
    (kisOp p).vertices.length = p.vertices.length + p.faces.length
      ∧ ∀ f ∈ (kisOp p).faces, f.vertices.length = 3 :=
  ⟨kisOp_vertex_count p, kisOp_triangles p⟩

end Conway

namespace Conway

/-! ### C1, C2: the join operator -/

set_option maxRecDepth 1000000 in
/-- C1 counterexample: at the cube, the join operator (which the code
implements as `Ambo(Dual(·))`) yields 12 vertices, 24 edges and 14 faces,
while `dual(ambo(cube))` yields 14 vertices, 24 edges and 12 faces — the two
meshes do not have the same vertex/edge/face structure. -/
theorem join_cube_ne_dual_ambo_cube :
    (joinOp Cube).counts = (12, 24, 14)
      ∧ (dualOp (amboOp Cube)).counts = (14, 24, 12)
      ∧ ((12, 24, 14) : Nat × Nat × Nat) ≠ (14, 24, 12) :=
  ⟨by decide, by decide, by decide⟩

set_option maxRecDepth 1000000 in
/-- C1 (amended): for every mesh `P` the join operator produces
`ambo(dual(P))` — ambo composed with dual, the reverse of the spec's
composition — and at the cube this differs from `dual(ambo(P))`: join gives
(V,E,F) = (12,24,14), the spec's composition (14,24,12). -/
theorem join_is_ambo_after_dual :
    (∀ p : Polyhedron, joinOp p = amboOp (dualOp p))
      ∧ (joinOp Cube).counts = (12, 24, 14)
      ∧ (dualOp (amboOp Cube)).counts = (14, 24, 12) :=
  ⟨fun _ => rfl, by decide, by decide⟩

set_option maxRecDepth 1000000 in
/-- C2 counterexample: parsing "jC" succeeds but yields a mesh with 12
vertices, 24 edges and 14 faces (the cuboctahedron counts), not 14/24/12 as
claimed. -/
theorem parse_jC_not_claimed_counts :
    (parse 0 "jC").toOption.map Polyhedron.counts = some (12, 24, 14)
      ∧ ((12, 24, 14) : Nat × Nat × Nat) ≠ (14, 24, 12) :=
  ⟨by decide, by decide⟩

set_option maxRecDepth 1000000 in
/-- C2 (amended): parsing "jC" succeeds and yields a mesh with exactly 12
vertices, 24 edges and 14 faces (the model's golden-ratio parameter is
irrelevant: the seed is the cube). -/
theorem parse_jC_result :
    ∃ m, parse 0 "jC" = Except.ok m ∧ m.counts = (12, 24, 14) := by
  have h : (parse 0 "jC").toOption.map Polyhedron.counts = some (12, 24, 14) := by
    decide
  cases hr : parse 0 "jC" with
  | error e =>
    rw [hr] at h
    simp [Except.toOption] at h
  | ok m =>
    rw [hr] at h
    simp [Except.toOption] at h
    exact ⟨m, rfl, h⟩

end Conway

namespace Conway

/-! ### Lemmas: the scanner -/

theorem GetSeed_isSome (phi : Frac) (c : Char) :
    (GetSeed phi c).isSome = isSeedChar c := by
  unfold GetSeed isSeedChar
  split_ifs <;> simp_all

theorem opFor_isSome (c : Char) : (opFor c).isSome = isOpChar c := by
  unfold opFor isOpChar
  split_ifs <;> simp_all

theorem seed_not_op {c : Char} (h : isSeedChar c = true) : isOpChar c = false := by
  simp only [isSeedChar, Bool.or_eq_true, decide_eq_true_eq] at h
  rcases h with (((h | h) | h) | h) | h <;> subst h <;> decide

/-- A list with no seed characters in which every character is a seed or an
operator consists of operator characters. -/
theorem no_seed_all_op :
    ∀ rest : List Char,
      ((rest.filter isSeedChar).length = 0
          ∧ rest.all (fun c => isSeedChar c || isOpChar c) = true)
        ↔ rest.all isOpChar = true
  | [] => by simp
  | c :: rest => by
    rw [List.all_cons, List.all_cons, List.filter_cons]
    constructor
    · rintro ⟨hlen, hall⟩
      rw [Bool.and_eq_true] at hall
      rcases hall with ⟨hc, hrest⟩
      by_cases hs : isSeedChar c = true
      · rw [if_pos (by rw [hs])] at hlen
        simp at hlen
      · rw [if_neg (by simpa using hs)] at hlen
        rw [Bool.not_eq_true] at hs
        rw [hs, Bool.false_or] at hc
        rw [hc, Bool.true_and]
        exact ((no_seed_all_op rest).mp ⟨hlen, hrest⟩)
    · intro h
      rw [Bool.and_eq_true] at h
      rcases h with ⟨hc, hrest⟩
      have hrest2 := (no_seed_all_op rest).mpr hrest
      have hcs : isSeedChar c = false := by
        by_cases hs : isSeedChar c = true
        · rw [seed_not_op hs] at hc
          exact absurd hc (by simp)
        · simpa using hs
      rw [if_neg (by rw [hcs]; simp)]
      refine ⟨hrest2.1, ?_⟩
      rw [hcs, Bool.false_or, hc, Bool.true_and]
      exact hrest2.2

/-! Step equations for the scanner. -/

theorem scanChars_nil (phi : Frac) (total i : Nat) (seed : Option Polyhedron)
    (ops : List Op) : scanChars phi total [] i seed ops = .ok (seed, ops) := rfl

theorem scanChars_seed (phi : Frac) (total : Nat) (c : Char) (cs : List Char)
    (i : Nat) (ops : List Op) {sd : Polyhedron} (h : GetSeed phi c = some sd) :
    scanChars phi total (c :: cs) i none ops
      = scanChars phi total cs (i + c.utf8Size) (some sd) ops := by
  simp only [scanChars]
  rw [h]

theorem scanChars_none_op (phi : Frac) (total : Nat) (c : Char) (cs : List Char)
    (i : Nat) (ops : List Op) {op : Op} (h1 : GetSeed phi c = none)
    (h2 : opFor c = some op) :
    scanChars phi total (c :: cs) i none ops
      = scanChars phi total cs (i + c.utf8Size) none (ops ++ [op]) := by
  simp only [scanChars]
  rw [h1, h2]

theorem scanChars_none_bad_last (phi : Frac) (total : Nat) (c : Char)
    (cs : List Char) (i : Nat) (ops : List Op) (h1 : GetSeed phi c = none)
    (h2 : opFor c = none) (h3 : i = total - 1) :
    scanChars phi total (c :: cs) i none ops = .error (.unknownSeed c) := by
  simp only [scanChars]
  rw [h1, h2, if_pos h3]

theorem scanChars_none_bad (phi : Frac) (total : Nat) (c : Char)
    (cs : List Char) (i : Nat) (ops : List Op) (h1 : GetSeed phi c = none)
    (h2 : opFor c = none) (h3 : ¬ i = total - 1) :
    scanChars phi total (c :: cs) i none ops = .error (.unknownOp c i) := by
  simp only [scanChars]
  rw [h1, h2, if_neg h3]

theorem scanChars_some_op (phi : Frac) (total : Nat) (c : Char) (cs : List Char)
    (i : Nat) (sd : Polyhedron) (ops : List Op) {op : Op}
    (h2 : opFor c = some op) :
    scanChars phi total (c :: cs) i (some sd) ops
      = scanChars phi total cs (i + c.utf8Size) (some sd) (ops ++ [op]) := by
  simp only [scanChars]
  rw [h2]

theorem scanChars_some_bad (phi : Frac) (total : Nat) (c : Char) (cs : List Char)
    (i : Nat) (sd : Polyhedron) (ops : List Op) (h2 : opFor c = none) :
    scanChars phi total (c :: cs) i (some sd) ops = .error (.unknownOp c i) := by
  simp only [scanChars]
  rw [h2]

theorem GetSeed_of_seedChar (phi : Frac) {c : Char} (h : isSeedChar c = true) :
    ∃ sd, GetSeed phi c = some sd := by
  have := GetSeed_isSome phi c
  rw [h] at this
  cases hg : GetSeed phi c with
  | some sd => exact ⟨sd, rfl⟩
  | none => rw [hg] at this; exact absurd this (by simp)

theorem GetSeed_of_not_seedChar (phi : Frac) {c : Char} (h : isSeedChar c = false) :
    GetSeed phi c = none := by
  have := GetSeed_isSome phi c
  rw [h] at this
  cases hg : GetSeed phi c with
  | some sd => rw [hg] at this; exact absurd this (by simp)
  | none => rfl

theorem opFor_of_opChar {c : Char} (h : isOpChar c = true) :
    ∃ op, opFor c = some op := by
  have := opFor_isSome c
  rw [h] at this
  cases hg : opFor c with
  | some op => exact ⟨op, rfl⟩
  | none => rw [hg] at this; exact absurd this (by simp)

theorem opFor_of_not_opChar {c : Char} (h : isOpChar c = false) :
    opFor c = none := by
  have := opFor_isSome c
  rw [h] at this
  cases hg : opFor c with
  | some op => rw [hg] at this; exact absurd this (by simp)
  | none => rfl

/-- With the seed already found, the scan completes (with a seed) exactly
when every remaining character is an operator. -/
theorem scan_some_ok (phi : Frac) (total : Nat) :
    ∀ (cs : List Char) (i : Nat) (sd : Polyhedron) (ops : List Op),
      (∃ sd2 ops2, scanChars phi total cs i (some sd) ops = .ok (some sd2, ops2))
        ↔ cs.all isOpChar = true
  | [], i, sd, ops => by
    rw [scanChars_nil, List.all_nil]
    simp only [iff_true]
    exact ⟨sd, ops, rfl⟩
  | c :: cs, i, sd, ops => by
    rw [List.all_cons]
    by_cases hc : isOpChar c = true
    · rcases opFor_of_opChar hc with ⟨op, hop⟩
      rw [scanChars_some_op phi total c cs i sd ops hop, hc, Bool.true_and]
      exact scan_some_ok phi total cs (i + c.utf8Size) sd (ops ++ [op])
    · have hc2 : isOpChar c = false := by simpa using hc
      rw [scanChars_some_bad phi total c cs i sd ops (opFor_of_not_opChar hc2),
        hc2, Bool.false_and]
      simp

/-- With no seed found yet, the scan completes with a seed exactly when the
remaining characters contain exactly one seed character and otherwise only
operators. -/
theorem scan_none_ok (phi : Frac) (total : Nat) :
    ∀ (cs : List Char) (i : Nat) (ops : List Op),
      (∃ sd2 ops2, scanChars phi total cs i none ops = .ok (some sd2, ops2))
        ↔ ((cs.filter isSeedChar).length = 1
            ∧ cs.all (fun c => isSeedChar c || isOpChar c) = true)
  | [], i, ops => by
    rw [scanChars_nil]
    constructor
    · rintro ⟨sd2, ops2, h⟩
      simp at h
    · rintro ⟨h, _⟩
      simp at h
  | c :: cs, i, ops => by
    rw [List.filter_cons, List.all_cons]
    by_cases hc : isSeedChar c = true
    · rcases GetSeed_of_seedChar phi hc with ⟨sd, hsd⟩
      rw [scanChars_seed phi total c cs i ops hsd]
      rw [if_pos (by rw [hc]), List.length_cons, hc, Bool.true_or,
        Bool.true_and]
      rw [scan_some_ok phi total cs (i + c.utf8Size) sd ops]
      constructor
      · intro h
        have h2 := (no_seed_all_op cs).mpr h
        rw [h2.1]
        exact ⟨rfl, h2.2⟩
      · rintro ⟨hlen, hall⟩
        have hlen0 : (cs.filter isSeedChar).length = 0 := by omega
        exact (no_seed_all_op cs).mp ⟨hlen0, hall⟩
    · have hc2 : isSeedChar c = false := by simpa using hc
      have hsd := GetSeed_of_not_seedChar phi hc2
      rw [if_neg (by rw [hc2]; simp), hc2, Bool.false_or]
      by_cases hco : isOpChar c = true
      · rcases opFor_of_opChar hco with ⟨op, hop⟩
        rw [scanChars_none_op phi total c cs i ops hsd hop, hco, Bool.true_and]
        exact scan_none_ok phi total cs (i + c.utf8Size) (ops ++ [op])
      · have hco2 : isOpChar c = false := by simpa using hco
        have hop := opFor_of_not_opChar hco2
        rw [hco2, Bool.false_and]
        refine iff_of_false ?_ (by rintro ⟨-, h⟩; simp at h)
        rintro ⟨sd2, ops2, habs⟩
        by_cases hi : i = total - 1
        · rw [scanChars_none_bad_last phi total c cs i ops hsd hop hi] at habs
          exact absurd habs (by simp)
        · rw [scanChars_none_bad phi total c cs i ops hsd hop hi] at habs
          exact absurd habs (by simp)

end Conway

namespace Conway

theorem byteLen_nil : byteLen [] = 0 := rfl

theorem byteLen_cons (c : Char) (cs : List Char) :
    byteLen (c :: cs) = c.utf8Size + byteLen cs := by
  simp [byteLen]

/-! ### C4: the accepted language -/

/-- C4 (amended): `Parse` succeeds exactly on those strings whose trimmed
form is a non-empty word of operator characters containing exactly one seed
character — anywhere, not only first or last (`OP* SEED OP*`); on every
other input it returns an error and no mesh. -/
theorem parse_accepts_iff (phi : Frac) (s : String) :
    (parse phi s).isOk = true ↔ opStarSeedOpStar (trimGo s.toList) = true := by
  unfold parse opStarSeedOpStar
  by_cases hemp : (trimGo s.toList).isEmpty = true
  · rw [if_pos hemp, hemp]
    simp [Except.isOk, Except.toBool]
  · have hemp2 : (trimGo s.toList).isEmpty = false := by simpa using hemp
    rw [if_neg hemp, hemp2]
    cases hscan : scanChars phi (byteLen (trimGo s.toList)) (trimGo s.toList)
        0 none [] with
    | error e =>
      simp only [Except.isOk, Except.toBool, Bool.not_false, Bool.true_and,
        Bool.and_eq_true, beq_iff_eq]
      constructor
      · intro h
        exact absurd h (by simp)
      · rintro ⟨h1, h2⟩
        have := (scan_none_ok phi (byteLen (trimGo s.toList))
          (trimGo s.toList) 0 []).mpr ⟨h1, h2⟩
        rcases this with ⟨sd2, ops2, habs⟩
        rw [hscan] at habs
        exact absurd habs (by simp)
    | ok pr =>
      rcases pr with ⟨seedOpt, ops⟩
      cases seedOpt with
      | none =>
        simp only [Except.isOk, Except.toBool, Bool.not_false, Bool.true_and,
          Bool.and_eq_true, beq_iff_eq]
        constructor
        · intro h
          exact absurd h (by simp)
        · rintro ⟨h1, h2⟩
          have := (scan_none_ok phi (byteLen (trimGo s.toList))
            (trimGo s.toList) 0 []).mpr ⟨h1, h2⟩
          rcases this with ⟨sd2, ops2, habs⟩
          rw [hscan] at habs
          simp at habs
      | some sd =>
        simp only [Except.isOk, Except.toBool, Bool.not_false, Bool.true_and,
          Bool.and_eq_true, beq_iff_eq]
        constructor
        · intro _
          have := (scan_none_ok phi (byteLen (trimGo s.toList))
            (trimGo s.toList) 0 []).mp ⟨sd, ops, hscan⟩
          exact ⟨this.1, this.2⟩
        · intro _
          trivial

set_option maxRecDepth 1000000 in
/-- C4 counterexample: "dTd" — operators on both sides of the seed — parses
successfully, although it matches neither `SEED OP*` nor `OP* SEED`. -/
theorem parse_dTd_accepted_outside_spec_grammar :
    (parse 0 "dTd").isOk = true
      ∧ specSeedFirstOrLast (trimGo "dTd".toList) = false :=
  ⟨by decide, by decide⟩

/-! ### C7: which error a bad character raises -/

theorem scan_err_some (phi : Frac) (total : Nat) :
    ∀ (pre : List Char) (c : Char) (suf : List Char) (i : Nat) (sd : Polyhedron)
      (ops : List Op),
      pre.all isOpChar = true → isOpChar c = false →
      scanChars phi total (pre ++ c :: suf) i (some sd) ops
        = .error (.unknownOp c (i + byteLen pre))
  | [], c, suf, i, sd, ops, _, hc => by
    rw [List.nil_append,
      scanChars_some_bad phi total c suf i sd ops (opFor_of_not_opChar hc),
      byteLen_nil, Nat.add_zero]
  | d :: pre, c, suf, i, sd, ops, hpre, hc => by
    rw [List.cons_append]
    rw [List.all_cons, Bool.and_eq_true] at hpre
    rcases opFor_of_opChar hpre.1 with ⟨op, hop⟩
    rw [scanChars_some_op phi total d (pre ++ c :: suf) i sd ops hop]
    rw [scan_err_some phi total pre c suf (i + d.utf8Size) sd (ops ++ [op])
      hpre.2 hc]
    rw [byteLen_cons]
    have : i + d.utf8Size + byteLen pre = i + (d.utf8Size + byteLen pre) := by
      omega
    rw [this]

theorem scan_err_none (phi : Frac) (total : Nat) :
    ∀ (pre : List Char) (c : Char) (suf : List Char) (i : Nat) (ops : List Op),
      pre.all (fun d => isSeedChar d || isOpChar d) = true →
      (pre.filter isSeedChar).length ≤ 1 →
      isOpChar c = false →
      ((pre.filter isSeedChar).length = 1 ∨ isSeedChar c = false) →
      scanChars phi total (pre ++ c :: suf) i none ops
        = .error
            (if (pre.filter isSeedChar).length = 0 ∧ i + byteLen pre = total - 1
             then ParseError.unknownSeed c
             else ParseError.unknownOp c (i + byteLen pre))
  | [], c, suf, i, ops, _, _, hcop, hcseed => by
    have hcs : isSeedChar c = false := by
      rcases hcseed with h | h
      · simp at h
      · exact h
    rw [List.nil_append, byteLen_nil]
    by_cases hi : i = total - 1
    · rw [scanChars_none_bad_last phi total c suf i ops
        (GetSeed_of_not_seedChar phi hcs) (opFor_of_not_opChar hcop) hi]
      rw [if_pos (⟨rfl, by omega⟩ :
        (List.filter isSeedChar []).length = 0 ∧ i + 0 = total - 1)]
    · rw [scanChars_none_bad phi total c suf i ops
        (GetSeed_of_not_seedChar phi hcs) (opFor_of_not_opChar hcop) hi]
      rw [if_neg (by rintro ⟨-, h2⟩; omega)]
      rw [Nat.add_zero]
  | d :: pre, c, suf, i, ops, hpre, hpre1, hcop, hcseed => by
    rw [List.cons_append]
    rw [List.all_cons, Bool.and_eq_true] at hpre
    by_cases hd : isSeedChar d = true
    · have hcount : (List.filter isSeedChar (d :: pre)).length
          = 1 + (pre.filter isSeedChar).length := by
        rw [List.filter_cons, if_pos (by rw [hd])]
        rw [List.length_cons]
        omega
      have hcount0 : (pre.filter isSeedChar).length = 0 := by
        rw [hcount] at hpre1
        omega
      have hallop : pre.all isOpChar = true :=
        (no_seed_all_op pre).mp ⟨hcount0, hpre.2⟩
      rcases GetSeed_of_seedChar phi hd with ⟨sd, hsd⟩
      rw [scanChars_seed phi total d (pre ++ c :: suf) i ops hsd]
      rw [scan_err_some phi total pre c suf (i + d.utf8Size) sd ops hallop hcop]
      rw [if_neg (by rintro ⟨h1, -⟩; rw [hcount] at h1; omega)]
      rw [byteLen_cons]
      have : i + d.utf8Size + byteLen pre = i + (d.utf8Size + byteLen pre) := by
        omega
      rw [this]
    · have hd2 : isSeedChar d = false := by simpa using hd
      have hdop : isOpChar d = true := by
        have := hpre.1
        rw [hd2, Bool.false_or] at this
        exact this
      have hfilter : List.filter isSeedChar (d :: pre) = pre.filter isSeedChar := by
        rw [List.filter_cons, if_neg (by rw [hd2]; simp)]
      rcases opFor_of_opChar hdop with ⟨op, hop⟩
      rw [scanChars_none_op phi total d (pre ++ c :: suf) i ops
        (GetSeed_of_not_seedChar phi hd2) hop]
      rw [hfilter] at hpre1 hcseed ⊢
      rw [scan_err_none phi total pre c suf (i + d.utf8Size) (ops ++ [op])
        hpre.2 hpre1 hcop hcseed]
      rw [byteLen_cons]
      have : i + d.utf8Size + byteLen pre = i + (d.utf8Size + byteLen pre) := by
        omega
      rw [this]

/-- C7 (amended): when the left-to-right scan of the trimmed input meets its
first unhandled character `c` (one that is not an operator, and not a seed
when no seed has been found), the parse fails with "unknown seed" exactly
when no seed character preceded it and its byte offset equals the byte
length of the trimmed string minus one — i.e. `c` is the final character and
occupies a single byte; in every other case (a seed already found, a
non-final character, or a final character wider than one byte) the error is
"unknown operation" carrying `c` and its byte offset. -/
theorem parse_error_kind (phi : Frac) (s : String) (pre : List Char) (c : Char)
    (suf : List Char)
    (hsplit : trimGo s.toList = pre ++ c :: suf)
    (hpre : pre.all (fun d => isSeedChar d || isOpChar d) = true)
    (hpre1 : (pre.filter isSeedChar).length ≤ 1)
    (hcop : isOpChar c = false)
    (hcseed : (pre.filter isSeedChar).length = 1 ∨ isSeedChar c = false) :
    parse phi s = .error
      (if (pre.filter isSeedChar).length = 0
          ∧ byteLen pre = byteLen (trimGo s.toList) - 1
        then ParseError.unknownSeed c
        else ParseError.unknownOp c (byteLen pre)) := by
  unfold parse
  have hne : (trimGo s.toList).isEmpty = false := by
    rw [hsplit]
    cases pre <;> rfl
  rw [if_neg (by rw [hne]; simp)]
  rw [hsplit]
  rw [scan_err_none phi (byteLen (pre ++ c :: suf)) pre c suf 0 [] hpre hpre1
    hcop hcseed]
  rw [Nat.zero_add]

set_option maxRecDepth 100000 in
/-- C7 witness: "dx" — final one-byte character `x`, no seed found — raises
the unknown-seed error, through `parse_error_kind`. -/
theorem parse_error_kind_witness :
    parse 0 "dx" = .error (ParseError.unknownSeed 'x') := by
  have h := parse_error_kind 0 "dx" ['d'] 'x' [] (by decide) (by decide)
    (by decide) (by decide) (by decide)
  rw [h, if_pos (by decide)]

set_option maxRecDepth 100000 in
/-- C7 counterexample: for the input "é" the offending character is the
final one and no seed was found, so the claim requires the unknown-seed
error; the code compares the byte offset 0 with the byte length 2 minus 1
and therefore reports unknown-operation instead. -/
theorem parse_multibyte_final_char :
    parse 0 "é" = .error (ParseError.unknownOp 'é' 0)
      ∧ trimGo "é".toList = ['é']
      ∧ isSeedChar 'é' = false
      ∧ isOpChar 'é' = false :=
  ⟨rfl, by decide, by decide, by decide⟩

end Conway

namespace Conway

/-! ### Lemmas: exact normalisation (C9) -/

theorem Frac.toRat_zero : (0 : Frac).toRat = 0 := by
  show (Frac.ofNat 0).toRat = 0
  rw [Frac.toRat_ofNat]
  norm_num

theorem Frac.toRat_one : (1 : Frac).toRat = 1 := by
  show (Frac.ofNat 1).toRat = 1
  rw [Frac.toRat_ofNat]
  norm_num

theorem vecx_add (v w : Vector3) : ((v.add w).x).toRat = v.x.toRat + w.x.toRat :=
  Frac.toRat_add v.x w.x

theorem vecy_add (v w : Vector3) : ((v.add w).y).toRat = v.y.toRat + w.y.toRat :=
  Frac.toRat_add v.y w.y

theorem vecz_add (v w : Vector3) : ((v.add w).z).toRat = v.z.toRat + w.z.toRat :=
  Frac.toRat_add v.z w.z

/-- Component of the running position sum of `calculateCentroid`. -/
theorem centroid_comp_sum (g : Vector3 → Frac)
    (hg : ∀ v w : Vector3, (g (v.add w)).toRat = (g v).toRat + (g w).toRat) :
    ∀ (l : List Vertex) (acc : Vector3),
      (g (l.foldl (fun sAcc v => sAcc.add v.position) acc)).toRat
        = (g acc).toRat + (l.map (fun v => (g v.position).toRat)).sum
  | [], acc => by simp
  | v :: l, acc => by
    rw [List.foldl_cons, centroid_comp_sum g hg l (acc.add v.position), hg,
      List.map_cons, List.sum_cons]
    ring

theorem sum_map_sub_const :
    ∀ (l : List ℚ) (a : ℚ), (l.map (fun q => q - a)).sum = l.sum - l.length * a
  | [], a => by simp
  | q :: l, a => by
    rw [List.map_cons, List.sum_cons, sum_map_sub_const l a, List.sum_cons,
      List.length_cons]
    push_cast
    ring

theorem sum_map_mul_const :
    ∀ (l : List ℚ) (a : ℚ), (l.map (fun q => q * a)).sum = l.sum * a
  | [], a => by simp
  | q :: l, a => by
    rw [List.map_cons, List.sum_cons, sum_map_mul_const l a, List.sum_cons]
    ring

theorem fmax_toRat (a b : Frac) : (a.fmax b).toRat = max a.toRat b.toRat := by
  unfold Frac.fmax
  split
  · next h =>
    rw [max_eq_right ((Frac.lt_iff_toRat a b).mp h).le]
  · next h =>
    have : ¬ a.toRat < b.toRat := fun hab => h ((Frac.lt_iff_toRat a b).mpr hab)
    rw [max_eq_left (le_of_not_lt this)]

theorem maxfold_toRat :
    ∀ (l : List Vertex) (acc : Frac),
      ((l.foldl (fun m v => m.fmax v.position.lengthSq) acc)).toRat
        = (l.map (fun v => v.position.lengthSq.toRat)).foldl max acc.toRat
  | [], acc => rfl
  | v :: l, acc => by
    rw [List.foldl_cons, maxfold_toRat l _, List.map_cons, List.foldl_cons,
      fmax_toRat]

theorem foldl_max_map_mul (k : ℚ) (hk : 0 ≤ k) :
    ∀ (l : List ℚ) (acc : ℚ),
      (l.map (fun q => k * q)).foldl max (k * acc) = k * l.foldl max acc
  | [], acc => rfl
  | q :: l, acc => by
    rw [List.map_cons, List.foldl_cons, List.foldl_cons,
      ← mul_max_of_nonneg _ _ hk]
    exact foldl_max_map_mul k hk l (max acc q)

theorem lengthSq_scale_toRat (w : Vector3) (s : Frac) :
    ((w.scale s).lengthSq).toRat = (s.toRat * s.toRat) * w.lengthSq.toRat := by
  show ((w.x * s) * (w.x * s) + (w.y * s) * (w.y * s)
      + (w.z * s) * (w.z * s) : Frac).toRat = _
  rw [Frac.toRat_add, Frac.toRat_add]
  rw [Frac.toRat_mul, Frac.toRat_mul, Frac.toRat_mul, Frac.toRat_mul,
    Frac.toRat_mul, Frac.toRat_mul]
  show _ = (s.toRat * s.toRat) * ((w.x * w.x + w.y * w.y + w.z * w.z : Frac)).toRat
  rw [Frac.toRat_add, Frac.toRat_add, Frac.toRat_mul, Frac.toRat_mul,
    Frac.toRat_mul]
  ring

theorem calculateCentroid_eq (p : Polyhedron) (h : p.vertices ≠ []) :
    p.calculateCentroid
      = (p.vertices.foldl (fun sAcc v => sAcc.add v.position) Vector3.zero).scale
          (Frac.ofNat p.vertices.length).inv := by
  unfold Polyhedron.calculateCentroid
  rw [if_neg (by simp [h])]

theorem maxDistSq_eq (q : Polyhedron) :
    q.maxDistSq = q.vertices.foldl (fun m v => m.fmax v.position.lengthSq) (0 : Frac) := rfl

theorem centered_vertices (p : Polyhedron) :
    p.centered.vertices = p.vertices.map (fun v =>
      { v with position := v.position.sub p.calculateCentroid }) := rfl

theorem normalizeWith_vertices_pos (p : Polyhedron) (s : Frac)
    (hmax : (0 : Frac) < p.centered.maxDistSq) :
    (p.normalizeWith s).vertices
      = p.vertices.map (fun v =>
          { v with position := (v.position.sub p.calculateCentroid).scale s }) := by
  simp only [Polyhedron.normalizeWith]
  rw [if_pos hmax]
  show p.centered.vertices.map _ = _
  rw [centered_vertices, List.map_map]
  rfl

/-- C9: in exact arithmetic, normalising a mesh that has a vertex away from
its centroid (with the code's scale factor `s = 1/maxDist`, characterised by
`s²·maxDistSq = 1`) yields a mesh whose centroid is exactly the origin and
whose farthest vertex is exactly at distance one (squared distance one); the
spec's `1e-10` tolerances hold a fortiori. -/
theorem normalizeWith_centroid_zero_max_one (p : Polyhedron) (s : Frac)
    (hmax : (0 : Frac) < p.centered.maxDistSq)
    (hs : ((s * s) * p.centered.maxDistSq).eqv 1) :
    ((p.normalizeWith s).calculateCentroid).toRatV = ((0 : ℚ), (0 : ℚ), (0 : ℚ))
      ∧ ((p.normalizeWith s).maxDistSq).toRat = 1 := by
  have hne : p.vertices ≠ [] := by
    intro habs
    have h0 : p.centered.maxDistSq = (0 : Frac) := by
      rw [maxDistSq_eq, centered_vertices, habs]
      rfl
    rw [h0] at hmax
    exact absurd ((Frac.lt_iff_toRat 0 0).mp hmax) (lt_irrefl _)
  have hvs := normalizeWith_vertices_pos p s hmax
  have hne2 : (p.normalizeWith s).vertices ≠ [] := by
    rw [hvs]
    intro h
    exact hne (List.map_eq_nil_iff.mp h)
  have hlen2 : (p.normalizeWith s).vertices.length = p.vertices.length := by
    rw [hvs, List.length_map]
  have hn : (p.vertices.length : ℚ) ≠ 0 := by
    have : p.vertices.length ≠ 0 := fun h => hne (List.length_eq_zero.mp h)
    exact_mod_cast this
  -- component value of the centroid of p
  have hpc : ∀ (g : Vector3 → Frac),
      (∀ v w : Vector3, (g (v.add w)).toRat = (g v).toRat + (g w).toRat) →
      (∀ (v : Vector3) (t : Frac), (g (v.scale t)).toRat = (g v).toRat * t.toRat) →
      (g Vector3.zero).toRat = 0 →
      (g p.calculateCentroid).toRat
        = (p.vertices.map (fun v => (g v.position).toRat)).sum
            * ((p.vertices.length : ℚ))⁻¹ := by
    intro g hg hgscale hz
    rw [calculateCentroid_eq p hne, hgscale, Frac.toRat_inv, Frac.toRat_ofNat,
      centroid_comp_sum g hg, hz, zero_add]
  -- each centroid component of the normalised mesh vanishes
  have hzero : ∀ (g : Vector3 → Frac),
      (∀ v w : Vector3, (g (v.add w)).toRat = (g v).toRat + (g w).toRat) →
      (∀ v w : Vector3, (g (v.sub w)).toRat = (g v).toRat - (g w).toRat) →
      (∀ (v : Vector3) (t : Frac), (g (v.scale t)).toRat = (g v).toRat * t.toRat) →
      (g Vector3.zero).toRat = 0 →
      (g ((p.normalizeWith s).calculateCentroid)).toRat = 0 := by
    intro g hg hgsub hgscale hz
    rw [calculateCentroid_eq _ hne2, hgscale, Frac.toRat_inv, Frac.toRat_ofNat,
      centroid_comp_sum g hg, hz, zero_add, hlen2, hvs, List.map_map]
    have hmapeq : (p.vertices.map ((fun v => (g v.position).toRat) ∘
        (fun v => { v with position := (v.position.sub p.calculateCentroid).scale s })))
        = (p.vertices.map (fun v =>
            (g v.position).toRat - (g p.calculateCentroid).toRat)).map
              (fun q => q * s.toRat) := by
      rw [List.map_map]
      refine List.map_congr_left ?_
      intro v _
      show (g ((v.position.sub p.calculateCentroid).scale s)).toRat = _
      rw [hgscale, hgsub]
      rfl
    rw [hmapeq, sum_map_mul_const]
    have h2 : (p.vertices.map (fun v =>
        (g v.position).toRat - (g p.calculateCentroid).toRat))
        = (p.vertices.map (fun v => (g v.position).toRat)).map
            (fun q => q - (g p.calculateCentroid).toRat) := by
      rw [List.map_map]
      rfl
    rw [h2, sum_map_sub_const, List.length_map,
      hpc g hg hgscale hz]
    field_simp
  refine ⟨?_, ?_⟩
  · show (_, _, _) = ((0 : ℚ), (0 : ℚ), (0 : ℚ))
    have hx := hzero Vector3.x (fun v w => Frac.toRat_add v.x w.x)
      (fun v w => Frac.toRat_sub v.x w.x)
      (fun v t => Frac.toRat_mul v.x t) Frac.toRat_zero
    have hy := hzero Vector3.y (fun v w => Frac.toRat_add v.y w.y)
      (fun v w => Frac.toRat_sub v.y w.y)
      (fun v t => Frac.toRat_mul v.y t) Frac.toRat_zero
    have hz := hzero Vector3.z (fun v w => Frac.toRat_add v.z w.z)
      (fun v w => Frac.toRat_sub v.z w.z)
      (fun v t => Frac.toRat_mul v.z t) Frac.toRat_zero
    rw [Prod.mk.injEq, Prod.mk.injEq]
    exact ⟨hx, hy, hz⟩
  · -- the largest squared distance becomes exactly one
    have hk : (0 : ℚ) ≤ s.toRat * s.toRat := mul_self_nonneg _
    have hsr : (s.toRat * s.toRat) * (p.centered.maxDistSq).toRat = 1 := by
      have h := (Frac.eqv_iff_toRat _ _).mp hs
      rw [Frac.toRat_mul, Frac.toRat_mul, Frac.toRat_one] at h
      exact h
    rw [maxDistSq_eq, hvs, maxfold_toRat, List.map_map]
    have hmapeq : (p.vertices.map ((fun v => v.position.lengthSq.toRat) ∘
        (fun v => { v with position := (v.position.sub p.calculateCentroid).scale s })))
        = (p.vertices.map (fun v =>
            ((v.position.sub p.calculateCentroid).lengthSq).toRat)).map
              (fun q => (s.toRat * s.toRat) * q) := by
      rw [List.map_map]
      refine List.map_congr_left ?_
      intro v _
      show (((v.position.sub p.calculateCentroid).scale s).lengthSq).toRat = _
      rw [lengthSq_scale_toRat]
      rfl
    rw [hmapeq]
    have h00 : (0 : Frac).toRat = (s.toRat * s.toRat) * (0 : ℚ) := by
      rw [Frac.toRat_zero, mul_zero]
    rw [h00, foldl_max_map_mul _ hk]
    have hm : (p.vertices.map (fun v =>
        ((v.position.sub p.calculateCentroid).lengthSq).toRat)).foldl max (0 : ℚ)
        = (p.centered.maxDistSq).toRat := by
      rw [maxDistSq_eq, maxfold_toRat, Frac.toRat_zero, centered_vertices,
        List.map_map]
      rfl
    rw [hm, hsr]

set_option maxRecDepth 100000 in
/-- C9 witness: `segmentMesh` (vertices at (±2,0,0)) with the exact scale
`1/2` — squared maximal distance 4, `(1/2)²·4 = 1`. -/
theorem normalizeWith_witness :
    ((segmentMesh.normalizeWith (Frac.ofNat 1 / Frac.ofNat 2)).calculateCentroid).toRatV
        = ((0 : ℚ), (0 : ℚ), (0 : ℚ))
      ∧ ((segmentMesh.normalizeWith
            (Frac.ofNat 1 / Frac.ofNat 2)).maxDistSq).toRat = 1 :=
  normalizeWith_centroid_zero_max_one segmentMesh (Frac.ofNat 1 / Frac.ofNat 2)
    (by decide) (by decide)

end Conway

namespace Conway

/-! ### Lemmas: the manifold validator (C5) -/

theorem nodup_subset_length_le (l1 l2 : List Nat) (h : l1.Nodup) (hs : l1 ⊆ l2) :
    l1.length ≤ l2.length := by
  calc l1.length = l1.toFinset.card := (List.toFinset_card_of_nodup h).symm
    _ ≤ l2.toFinset.card := Finset.card_le_card (by
          intro a ha
          rw [List.mem_toFinset] at *
          exact hs ha)
    _ ≤ l2.length := List.toFinset_card_le l2

theorem findNextFace_fresh (p : Polyhedron) (vid : Nat) (current f : Face)
    (ordered : List Face)
    (h : findNextFaceInEdges p vid current ordered = some f) :
    ∀ g ∈ ordered, g.id ≠ f.id := by
  obtain ⟨e, _, hf⟩ := List.exists_of_findSome?_eq_some h
  have hp := List.find?_some hf
  simp only [Bool.and_eq_true, Bool.not_eq_true', List.any_eq_false, beq_iff_eq,
    decide_eq_true_eq] at hp
  intro g hg
  exact hp.1.2 g hg

theorem find_unvisited_fresh (faces ordered : List Face) (f : Face)
    (h : faces.find? (fun fc => !(ordered.any (fun g => g.id == fc.id))) = some f) :
    ∀ g ∈ ordered, g.id ≠ f.id := by
  have hp := List.find?_some h
  simp only [Bool.not_eq_true', List.any_eq_false, beq_iff_eq] at hp
  exact hp

theorem exists_unvisited (faces ordered : List Face)
    (hnd : (faces.map Face.id).Nodup) (hord : (ordered.map Face.id).Nodup)
    (hlt : ordered.length < faces.length) :
    ∃ f ∈ faces, ∀ g ∈ ordered, g.id ≠ f.id := by
  by_contra hall
  push_neg at hall
  have hsub : (faces.map Face.id) ⊆ (ordered.map Face.id) := by
    intro i hi
    rw [List.mem_map] at hi
    obtain ⟨f, hf, rfl⟩ := hi
    obtain ⟨g, hg, hgid⟩ := hall f hf
    rw [List.mem_map]
    exact ⟨g, hg, hgid⟩
  have hle := nodup_subset_length_le _ _ hnd hsub
  rw [List.length_map, List.length_map] at hle
  omega

theorem orderFacesLoop_length (p : Polyhedron) (vid : Nat) (faces : List Face)
    (hnd : (faces.map Face.id).Nodup) :
    ∀ (fuel : Nat) (ordered : List Face) (current : Face),
      (ordered.map Face.id).Nodup →
      faces.length ≤ ordered.length + fuel →
      (orderFacesLoop p vid faces fuel ordered current).length
        = max ordered.length faces.length
  | 0, ordered, _, _, hfuel => by
    show ordered.length = _
    rw [Nat.max_eq_left (by omega)]
  | fuel + 1, ordered, current, hord, hfuel => by
    by_cases hlt : ordered.length < faces.length
    · simp only [orderFacesLoop]
      rw [if_pos hlt]
      cases hfind : findNextFaceInEdges p vid current ordered with
      | some f =>
        simp only [hfind]
        have hfresh := findNextFace_fresh p vid current f ordered hfind
        have hord2 : ((ordered ++ [f]).map Face.id).Nodup := by
          rw [List.map_append, List.nodup_append]
          refine ⟨hord, by simp, ?_⟩
          intro a ha hb
          simp only [List.map_cons, List.map_nil, List.mem_singleton] at hb
          rw [List.mem_map] at ha
          obtain ⟨g, hg, rfl⟩ := ha
          exact hfresh g hg hb
        rw [orderFacesLoop_length p vid faces hnd fuel (ordered ++ [f]) f hord2
          (by simp only [List.length_append, List.length_singleton]; omega)]
        simp only [List.length_append, List.length_singleton]
        rw [Nat.max_eq_right (by omega), Nat.max_eq_right (by omega)]
      | none =>
        simp only [hfind]
        obtain ⟨f, hfmem, hfresh⟩ := exists_unvisited faces ordered hnd hord hlt
        have hsome : (faces.find? (fun fc =>
            !(ordered.any (fun g => g.id == fc.id)))).isSome := by
          rw [List.find?_isSome]
          refine ⟨f, hfmem, ?_⟩
          simp only [Bool.not_eq_true', List.any_eq_false, beq_iff_eq]
          intro g hg
          exact hfresh g hg
        cases hfind2 : faces.find? (fun fc =>
            !(ordered.any (fun g => g.id == fc.id))) with
        | none =>
          rw [hfind2] at hsome
          simp at hsome
        | some f2 =>
          simp only [hfind2]
          have hfresh2 := find_unvisited_fresh faces ordered f2 hfind2
          have hord2 : ((ordered ++ [f2]).map Face.id).Nodup := by
            rw [List.map_append, List.nodup_append]
            refine ⟨hord, by simp, ?_⟩
            intro a ha hb
            simp only [List.map_cons, List.map_nil, List.mem_singleton] at hb
            rw [List.mem_map] at ha
            obtain ⟨g, hg, rfl⟩ := ha
            exact hfresh2 g hg hb
          rw [orderFacesLoop_length p vid faces hnd fuel (ordered ++ [f2]) f2 hord2
            (by simp only [List.length_append, List.length_singleton]; omega)]
          simp only [List.length_append, List.length_singleton]
          rw [Nat.max_eq_right (by omega), Nat.max_eq_right (by omega)]
    · simp only [orderFacesLoop]
      rw [if_neg hlt]
      rw [Nat.max_eq_left (by omega)]

theorem orderFacesAroundVertex_length (p : Polyhedron) (vid : Nat)
    (hnd : (p.faces.map Face.id).Nodup) :
    (p.orderFacesAroundVertex vid).length = (p.vertexFaces vid).length := by
  have hndv : ((p.vertexFaces vid).map Face.id).Nodup :=
    hnd.sublist ((List.filter_sublist _).map Face.id)
  rw [show p.orderFacesAroundVertex vid
      = (match p.vertexFaces vid with
        | [] => []
        | f0 :: _ =>
          if (p.vertexFaces vid).length ≤ 2 then p.vertexFaces vid
          else orderFacesLoop p vid (p.vertexFaces vid)
            (p.vertexFaces vid).length [f0] f0) from rfl]
  cases hf : p.vertexFaces vid with
  | nil => rfl
  | cons f0 rest =>
    by_cases hle : (f0 :: rest).length ≤ 2
    · show (if (f0 :: rest).length ≤ 2 then f0 :: rest else _).length = _
      rw [if_pos hle]
    · show (if (f0 :: rest).length ≤ 2 then f0 :: rest
        else orderFacesLoop p vid (f0 :: rest) (f0 :: rest).length [f0] f0).length = _
      rw [if_neg hle]
      rw [hf] at hndv
      rw [orderFacesLoop_length p vid (f0 :: rest) hndv (f0 :: rest).length [f0] f0
        (by simp) (by simp only [List.length_singleton]; omega)]
      rw [show ([f0] : List Face).length = 1 from rfl,
        Nat.max_eq_right (by simp only [List.length_cons]; omega)]

theorem validateVertexManifold_none_iff (p : Polyhedron) (vid : Nat)
    (hnd : (p.faces.map Face.id).Nodup) :
    p.validateVertexManifold vid = none ↔ 3 ≤ (p.vertexFaces vid).length := by
  rw [show p.validateVertexManifold vid
      = (if (p.vertexFaces vid).length < 3 then
           some (ManifoldIssue.vertexFewFaces vid (p.vertexFaces vid).length)
         else if (p.orderFacesAroundVertex vid).length ≠ (p.vertexFaces vid).length
           then some (ManifoldIssue.vertexCycle vid)
         else none) from rfl]
  by_cases h3 : (p.vertexFaces vid).length < 3
  · rw [if_pos h3]
    constructor
    · intro h
      exact Option.noConfusion h
    · intro h
      omega
  · rw [if_neg h3, if_neg (by rw [orderFacesAroundVertex_length p vid hnd]; simp)]
    constructor
    · intro _
      omega
    · intro _
      rfl

/-- C5 (amended): with distinct face identifiers, `ValidateManifold` reports
an error exactly when some edge's face count is neither 1 nor 2 or some
vertex has fewer than three incident faces.  The spec's "single connected
cycle" condition is never enforced: the ordering traversal's fallback always
returns every incident face, so the cycle comparison cannot fail. -/
theorem ValidateManifold_none_iff (p : Polyhedron)
    (hnd : (p.faces.map Face.id).Nodup) :
    p.ValidateManifold = none ↔
      ((∀ e ∈ p.edges, (p.edgeFaces e.id).length = 1 ∨ (p.edgeFaces e.id).length = 2)
        ∧ (∀ v ∈ p.vertices, 3 ≤ (p.vertexFaces v.id).length)) := by
  have hEiff : (p.edges.findSome? (fun e =>
        if (p.edgeFaces e.id).length ≠ 2 then
          (if (p.edgeFaces e.id).length = 1 then none
           else some (ManifoldIssue.edgeFaceCount e.id (p.edgeFaces e.id).length))
        else none)) = none
      ↔ ∀ e ∈ p.edges,
          (p.edgeFaces e.id).length = 1 ∨ (p.edgeFaces e.id).length = 2 := by
    rw [List.findSome?_eq_none_iff]
    constructor
    · intro h e he
      have h2 := h e he
      by_cases hn2 : (p.edgeFaces e.id).length = 2
      · right
        exact hn2
      · by_cases hn1 : (p.edgeFaces e.id).length = 1
        · left
          exact hn1
        · rw [if_pos hn2, if_neg hn1] at h2
          exact Option.noConfusion h2
    · intro h e he
      rcases h e he with h1 | h2
      · rw [if_pos (by omega), if_pos h1]
      · rw [if_neg (by omega)]
  have hViff : (p.vertices.findSome? (fun v => p.validateVertexManifold v.id)) = none
      ↔ ∀ v ∈ p.vertices, 3 ≤ (p.vertexFaces v.id).length := by
    rw [List.findSome?_eq_none_iff]
    constructor
    · intro h v hv
      exact (validateVertexManifold_none_iff p v.id hnd).mp (h v hv)
    · intro h v hv
      exact (validateVertexManifold_none_iff p v.id hnd).mpr (h v hv)
  rw [show p.ValidateManifold
      = (match p.edges.findSome? (fun e =>
          if (p.edgeFaces e.id).length ≠ 2 then
            (if (p.edgeFaces e.id).length = 1 then none
             else some (ManifoldIssue.edgeFaceCount e.id (p.edgeFaces e.id).length))
          else none) with
        | some issue => some issue
        | none => p.vertices.findSome? (fun v => p.validateVertexManifold v.id))
      from rfl]
  cases hE2 : p.edges.findSome? (fun e =>
      if (p.edgeFaces e.id).length ≠ 2 then
        (if (p.edgeFaces e.id).length = 1 then none
         else some (ManifoldIssue.edgeFaceCount e.id (p.edgeFaces e.id).length))
      else none) with
  | none =>
    show p.vertices.findSome? (fun v => p.validateVertexManifold v.id) = none ↔ _
    rw [hViff]
    constructor
    · intro hb
      exact ⟨hEiff.mp hE2, hb⟩
    · intro hab
      exact hab.2
  | some issue =>
    show some issue = none ↔ _
    constructor
    · intro h
      exact Option.noConfusion h
    · intro hab
      have hnone := hEiff.mpr hab.1
      rw [hnone] at hE2
      exact Option.noConfusion hE2

set_option maxRecDepth 1000000 in
/-- C5 witness: the cube seed has pairwise-distinct face identifiers and
passes both actual checks, so `ValidateManifold` accepts it. -/
theorem ValidateManifold_none_iff_witness : Cube.ValidateManifold = none :=
  (ValidateManifold_none_iff Cube (by decide)).mpr (by decide)

set_option maxRecDepth 1000000 in
/-- C5 counterexample: two tetrahedra sharing a single vertex.  Every edge
has exactly two incident faces and every vertex at least three, so
`ValidateManifold` reports no error — yet the six faces around the shared
vertex split into two disjoint triangles of mutually adjacent faces, so they
do not form a single connected cycle and the spec's stated error condition
holds. -/
theorem ValidateManifold_spec_mismatch :
    twoTetra.ValidateManifold = none ∧ specManifoldError twoTetra = true := by
  constructor
  · rfl
  · rfl

end Conway

namespace Conway

/-! ### Lemmas: Clone (C10) -/

theorem lookup_zip_nodup :
    ∀ (ks vs : List Nat), ks.Nodup →
      ∀ i, i < ks.length → i < vs.length →
        (ks.zip vs).lookup (ks.getD i 0) = some (vs.getD i 0)
  | [], _, _, i, hik, _ => by simp at hik
  | _ :: _, [], _, _, _, hiv => by simp at hiv
  | k :: ks, v :: vs, hnd, 0, _, _ => by
    show ((k, v) :: ks.zip vs).lookup k = some v
    simp [List.lookup]
  | k :: ks, v :: vs, hnd, i + 1, hik, hiv => by
    show ((k, v) :: ks.zip vs).lookup (ks.getD i 0) = some (vs.getD i 0)
    have hik' : i < ks.length := by simpa using hik
    have hiv' : i < vs.length := by simpa using hiv
    rw [List.nodup_cons] at hnd
    have hne : ks.getD i 0 ≠ k := by
      intro he
      have hmem : ks.getD i 0 ∈ ks := by
        rw [List.getD_eq_getElem?_getD, List.getElem?_eq_getElem hik', Option.getD_some]
        exact List.getElem_mem hik'
      exact hnd.1 (he ▸ hmem)
    simp only [List.lookup]
    rw [show (ks.getD i 0 == k) = false from beq_eq_false_iff_ne.mpr hne]
    exact lookup_zip_nodup ks vs hnd.2 i hik' hiv'

theorem getD_map_lt (f : Nat → Nat) (l : List Nat) (i : Nat) (h : i < l.length)
    (d d' : Nat) : (l.map f).getD i d = f (l.getD i d') := by
  have h2 : i < (l.map f).length := by simpa using h
  rw [List.getD_eq_getElem?_getD, List.getElem?_eq_getElem h2, Option.getD_some,
    List.getElem_map, List.getD_eq_getElem?_getD, List.getElem?_eq_getElem h,
    Option.getD_some]

theorem cyclicPairs_map (vmap : Nat → Nat) (vs : List Nat) :
    cyclicPairs (vs.map vmap)
      = (cyclicPairs vs).map (fun ab => (vmap ab.1, vmap ab.2)) := by
  unfold cyclicPairs
  rw [List.length_map, List.map_map]
  refine List.map_congr_left ?_
  intro i hi
  rw [List.mem_range] at hi
  have hmod : (i + 1) % vs.length < vs.length := Nat.mod_lt _ (by omega)
  show ((vs.map vmap).getD i 0, (vs.map vmap).getD ((i + 1) % vs.length) 0) = _
  rw [getD_map_lt vmap vs i hi 0 0, getD_map_lt vmap vs _ hmod 0 0]
  rfl

theorem map_position_zipWith :
    ∀ (ids : List Nat) (l : List Vertex), ids.length = l.length →
      (List.zipWith (fun id v => Vertex.mk id v.position) ids l).map Vertex.position
        = l.map Vertex.position
  | [], [], _ => rfl
  | [], _ :: _, h => by simp at h
  | _ :: _, [], h => by simp at h
  | id :: ids, v :: l, h => by
    simp only [List.zipWith_cons_cons, List.map_cons]
    rw [map_position_zipWith ids l (by simpa using h)]

theorem map_id_zipWith :
    ∀ (ids : List Nat) (l : List Vertex), ids.length = l.length →
      (List.zipWith (fun id v => Vertex.mk id v.position) ids l).map Vertex.id = ids
  | [], [], _ => rfl
  | [], _ :: _, h => by simp at h
  | _ :: _, [], h => by simp at h
  | id :: ids, v :: l, h => by
    simp only [List.zipWith_cons_cons, List.map_cons]
    rw [map_id_zipWith ids l (by simpa using h)]

theorem cloneIdMap_eq (p : Polyhedron) (vid : Nat) :
    p.cloneIdMap vid
      = (((p.vertices.map Vertex.id).zip
          (List.range' 1 p.vertices.length)).lookup vid).getD 0 := by
  unfold Polyhedron.cloneIdMap
  rw [(addVertsKeyed_spec (newPolyhedron p.name) p.vertices
    Vertex.id Vertex.position).2.2.1]
  rfl

theorem cloneIdMap_getD (p : Polyhedron) (hnd : (p.vertices.map Vertex.id).Nodup)
    (i : Nat) (hi : i < p.vertices.length) :
    p.cloneIdMap ((p.vertices.map Vertex.id).getD i 0) = 1 + i := by
  rw [cloneIdMap_eq]
  rw [lookup_zip_nodup (p.vertices.map Vertex.id) (List.range' 1 p.vertices.length)
    hnd i (by simpa using hi) (by simpa using hi)]
  rw [Option.getD_some, List.getD_eq_getElem?_getD,
    List.getElem?_eq_getElem (by simpa using hi), Option.getD_some,
    List.getElem_range']
  omega

theorem cloneIdMap_of_mem (p : Polyhedron) (hnd : (p.vertices.map Vertex.id).Nodup)
    (a : Nat) (ha : a ∈ p.vertices.map Vertex.id) :
    ∃ i, i < p.vertices.length ∧ (p.vertices.map Vertex.id).getD i 0 = a
      ∧ p.cloneIdMap a = 1 + i := by
  obtain ⟨i, hlt, hval⟩ := List.mem_iff_getElem.mp ha
  have hlt' : i < p.vertices.length := by simpa using hlt
  have hgetD : (p.vertices.map Vertex.id).getD i 0 = a := by
    rw [List.getD_eq_getElem?_getD, List.getElem?_eq_getElem hlt, Option.getD_some, hval]
  refine ⟨i, hlt', hgetD, ?_⟩
  rw [← hgetD, cloneIdMap_getD p hnd i hlt']

theorem cloneIdMap_inj (p : Polyhedron) (hnd : (p.vertices.map Vertex.id).Nodup)
    {a b : Nat} (ha : a ∈ p.vertices.map Vertex.id) (hb : b ∈ p.vertices.map Vertex.id)
    (h : p.cloneIdMap a = p.cloneIdMap b) : a = b := by
  obtain ⟨i, hi, hga, hca⟩ := cloneIdMap_of_mem p hnd a ha
  obtain ⟨j, hj, hgb, hcb⟩ := cloneIdMap_of_mem p hnd b hb
  rw [hca, hcb] at h
  have hij : i = j := by omega
  rw [← hga, ← hgb, hij]

theorem sameTwo_trans {a b c : Nat × Nat} (h1 : sameTwo a b) (h2 : sameTwo a c) :
    sameTwo b c := by
  rcases h1 with ⟨x1, x2⟩ | ⟨x1, x2⟩ <;> rcases h2 with ⟨y1, y2⟩ | ⟨y1, y2⟩ <;>
    first
      | exact Or.inl ⟨by omega, by omega⟩
      | exact Or.inr ⟨by omega, by omega⟩

theorem AddFace_pair_present (m : Polyhedron) (vs : List Nat) {x y : Nat}
    (h : (x, y) ∈ cyclicPairs vs) : ((m.AddFace vs).findEdge x y).isSome := by
  rcases storedVerts_cases m vs with hs | hs
  · have hab : ((x, y) : Nat × Nat) ∈ cyclicPairs (m.storedVerts vs) := by
      rw [hs]
      exact h
    exact AddFace_findEdge_after m vs hab
  · have hab : ((y, x) : Nat × Nat) ∈ cyclicPairs (m.storedVerts vs) := by
      rw [hs]
      exact cyclicPairs_reverse (l := vs.reverse) (by rw [List.reverse_reverse]; exact h)
  -- the edge was inserted with reversed orientation; symmetry of findEdge closes it
    exact (findEdge_symm_isSome _ x y).mpr (AddFace_findEdge_after m vs hab)

theorem cloneFold_findEdge_mono (vmap : Nat → Nat) :
    ∀ (fs : List Face) (m : Polyhedron) (x y : Nat),
      (m.findEdge x y).isSome →
      ((fs.foldl (cloneFaceStep vmap) m).findEdge x y).isSome
  | [], _, _, _, h => h
  | f :: fs, m, x, y, h => by
    show ((fs.foldl (cloneFaceStep vmap) (cloneFaceStep vmap m f)).findEdge x y).isSome
    exact cloneFold_findEdge_mono vmap fs _ x y (AddFace_findEdge_mono m _ x y h)

theorem cloneFold_pair_present (vmap : Nat → Nat) :
    ∀ (fs : List Face) (m : Polyhedron) (f : Face), f ∈ fs →
      ∀ x y : Nat, (x, y) ∈ cyclicPairs (f.vertices.map vmap) →
      ((fs.foldl (cloneFaceStep vmap) m).findEdge x y).isSome
  | [], _, _, hf, _, _, _ => absurd hf (List.not_mem_nil _)
  | g :: fs, m, f, hf, x, y, hxy => by
    show ((fs.foldl (cloneFaceStep vmap) (cloneFaceStep vmap m g)).findEdge x y).isSome
    rcases List.mem_cons.mp hf with rfl | hf2
    · exact cloneFold_findEdge_mono vmap fs _ x y (AddFace_pair_present m _ hxy)
    · exact cloneFold_pair_present vmap fs _ f hf2 x y hxy

theorem cloneFold_faces_forall2 (vmap : Nat → Nat) :
    ∀ (fs : List Face) (m : Polyhedron),
      ∃ nw : List Face,
        (fs.foldl (cloneFaceStep vmap) m).faces = m.faces ++ nw
        ∧ List.Forall₂ (fun f g =>
            g.vertices = f.vertices.map vmap
              ∨ g.vertices = (f.vertices.map vmap).reverse) fs nw
  | [], m => ⟨[], by simp, List.Forall₂.nil⟩
  | f :: fs, m => by
    obtain ⟨nw, hfaces, hrel⟩ := cloneFold_faces_forall2 vmap fs (cloneFaceStep vmap m f)
    obtain ⟨eids, hshape⟩ := AddFace_faces_shape m (f.vertices.map vmap)
    refine ⟨⟨m.nextID + 1, m.storedVerts (f.vertices.map vmap), eids⟩ :: nw, ?_, ?_⟩
    · show (fs.foldl (cloneFaceStep vmap) (cloneFaceStep vmap m f)).faces = _
      rw [hfaces]
      show (m.AddFace (f.vertices.map vmap)).faces ++ nw = _
      rw [hshape, List.append_assoc]
      rfl
    · refine List.Forall₂.cons ?_ hrel
      show m.storedVerts (f.vertices.map vmap) = _ ∨ m.storedVerts (f.vertices.map vmap) = _
      exact storedVerts_cases m (f.vertices.map vmap)

theorem cloneFold_edges_sub (vmap : Nat → Nat) :
    ∀ (fs : List Face) (m : Polyhedron),
      ∀ e ∈ (fs.foldl (cloneFaceStep vmap) m).edges,
        e ∈ m.edges
          ∨ ∃ f ∈ fs, ∃ ab ∈ cyclicPairs f.vertices,
              sameTwo (e.v1, e.v2) (vmap ab.1, vmap ab.2)
  | [], _, _, he => Or.inl he
  | f :: fs, m, e, he => by
    have he2 := cloneFold_edges_sub vmap fs (cloneFaceStep vmap m f) e he
    rcases he2 with he2 | ⟨g, hg, ab, hab, hst⟩
    · rcases AddFace_edges_sub m (f.vertices.map vmap) e he2 with hm | ⟨ab, hab, h12⟩
      · exact Or.inl hm
      · right
        obtain ⟨a1, a2⟩ := ab
        rcases storedVerts_cases m (f.vertices.map vmap) with hs | hs
        · rw [hs, cyclicPairs_map] at hab
          obtain ⟨cd, hcd, hmap⟩ := List.mem_map.mp hab
          refine ⟨f, List.mem_cons_self f fs, cd, hcd, ?_⟩
          rw [h12.1, h12.2]
          rw [show ((a1, a2).1, (a1, a2).2) = (a1, a2) from rfl, ← hmap]
          exact sameTwo_refl _
        · rw [hs] at hab
          have hab2 := cyclicPairs_reverse hab
          rw [cyclicPairs_map] at hab2
          obtain ⟨cd, hcd, hmap⟩ := List.mem_map.mp hab2
          refine ⟨f, List.mem_cons_self f fs, cd, hcd, ?_⟩
          rw [h12.1, h12.2]
          have h1 : vmap cd.1 = a2 := congrArg Prod.fst hmap
          have h2 : vmap cd.2 = a1 := congrArg Prod.snd hmap
          rw [show ((a1, a2).1, (a1, a2).2) = (a1, a2) from rfl, ← h1, ← h2]
          exact sameTwo_comm _ _
    · exact Or.inr ⟨g, List.mem_cons_of_mem f hg, ab, hab, hst⟩

theorem cyclicPairs_getD {l : List Nat} {i : Nat} (h : i < l.length) :
    (cyclicPairs l).getD i (0, 0) = (l.getD i 0, l.getD ((i + 1) % l.length) 0) := by
  have h2 : i < (cyclicPairs l).length := by rw [cyclicPairs_length]; exact h
  rw [List.getD_eq_getElem?_getD, List.getElem?_eq_getElem h2, Option.getD_some]
  show (cyclicPairs l)[i] = _
  unfold cyclicPairs
  rw [List.getElem_map]
  rw [List.getElem_range]

/-- C10 (amended): for a coherent mesh, `Clone` preserves the name, copies
the vertices in order at identical positions, and re-adds each face over the
corresponding (freshly numbered) vertices in the same order **or reversed**
— `AddFace` re-applies the winding correction, which can reverse a face's
stored order.  Every source edge on at least one face has a corresponding
edge in the clone; a source edge on no face has none. -/
theorem Clone_spec (p : Polyhedron) (hco : p.Coherent) :
    (p.Clone).name = p.name
      ∧ (p.Clone).vertices.map Vertex.position = p.vertices.map Vertex.position
      ∧ List.Forall₂ (fun f g =>
          g.vertices = f.vertices.map p.cloneIdMap
            ∨ g.vertices = (f.vertices.map p.cloneIdMap).reverse)
          p.faces (p.Clone).faces
      ∧ (∀ e ∈ p.edges, (∃ f ∈ p.faces, e.id ∈ f.edges) →
          ((p.Clone).findEdge (p.cloneIdMap e.v1) (p.cloneIdMap e.v2)).isSome = true)
      ∧ (∀ e ∈ p.edges, (∀ f ∈ p.faces, e.id ∉ f.edges) →
          ((p.Clone).findEdge (p.cloneIdMap e.v1) (p.cloneIdMap e.v2)).isSome = false) := by
  obtain ⟨hndv, hnde, hedge, hpairw, hface⟩ := hco
  have hspec := addVertsKeyed_spec (newPolyhedron p.name) p.vertices Vertex.id Vertex.position
  have hclone : p.Clone
      = p.faces.foldl (cloneFaceStep p.cloneIdMap)
          (addVertsKeyed (newPolyhedron p.name) p.vertices Vertex.id Vertex.position).1 := rfl
  have hv1 : (addVertsKeyed (newPolyhedron p.name) p.vertices
        Vertex.id Vertex.position).1.vertices
      = List.zipWith (fun id v => Vertex.mk id v.position)
          (List.range' 1 p.vertices.length) p.vertices := by
    rw [hspec.1]
    rfl
  have hedges0 : (addVertsKeyed (newPolyhedron p.name) p.vertices
      Vertex.id Vertex.position).1.edges = [] := by
    rw [hspec.2.2.2.1]
    rfl
  have hfaces0 : (addVertsKeyed (newPolyhedron p.name) p.vertices
      Vertex.id Vertex.position).1.faces = [] := by
    rw [hspec.2.2.2.2.1]
    rfl
  have hname0 : (addVertsKeyed (newPolyhedron p.name) p.vertices
      Vertex.id Vertex.position).1.name = p.name := by
    rw [hspec.2.2.2.2.2]
    rfl
  refine ⟨?_, ?_, ?_, ?_, ?_⟩
  · rw [hclone, foldl_name (cloneFaceStep p.cloneIdMap)
      (fun m f => AddFace_name m _) p.faces _, hname0]
  · rw [hclone, foldl_vertices (cloneFaceStep p.cloneIdMap)
      (fun m f => AddFace_vertices m _) p.faces _, hv1]
    exact map_position_zipWith _ _ (by simp)
  · obtain ⟨nw, hnw, hrel⟩ := cloneFold_faces_forall2 p.cloneIdMap p.faces
      (addVertsKeyed (newPolyhedron p.name) p.vertices Vertex.id Vertex.position).1
    rw [hclone, hnw, hfaces0, List.nil_append]
    exact hrel
  · intro e he hex
    obtain ⟨f, hf, heid⟩ := hex
    obtain ⟨hlen, hsubv, hpar⟩ := hface f hf
    obtain ⟨i, hi, hival⟩ := List.mem_iff_getElem.mp heid
    obtain ⟨e2, he2, hid2, hst2⟩ := hpar i hi
    have hee : e2 = e := by
      refine List.inj_on_of_nodup_map hnde he2 he ?_
      rw [hid2, List.getD_eq_getElem?_getD, List.getElem?_eq_getElem hi,
        Option.getD_some, hival]
    subst hee
    have hi' : i < f.vertices.length := by rw [← hlen]; exact hi
    have habmem : (cyclicPairs f.vertices).getD i (0, 0) ∈ cyclicPairs f.vertices := by
      have h2 : i < (cyclicPairs f.vertices).length := by
        rw [cyclicPairs_length]
        exact hi'
      rw [List.getD_eq_getElem?_getD, List.getElem?_eq_getElem h2, Option.getD_some]
      exact List.getElem_mem h2
    have hmapped : ((p.cloneIdMap ((cyclicPairs f.vertices).getD i (0, 0)).1,
        p.cloneIdMap ((cyclicPairs f.vertices).getD i (0, 0)).2) : Nat × Nat)
        ∈ cyclicPairs (f.vertices.map p.cloneIdMap) := by
      rw [cyclicPairs_map]
      exact List.mem_map.mpr ⟨_, habmem, rfl⟩
    rw [hclone]
    rcases hst2 with ⟨h1, h2⟩ | ⟨h1, h2⟩
    · have h1s : e2.v1 = ((cyclicPairs f.vertices).getD i (0, 0)).1 := h1
      have h2s : e2.v2 = ((cyclicPairs f.vertices).getD i (0, 0)).2 := h2
      rw [h1s, h2s]
      exact cloneFold_pair_present p.cloneIdMap p.faces _ f hf _ _ hmapped
    · have h1s : e2.v1 = ((cyclicPairs f.vertices).getD i (0, 0)).2 := h1
      have h2s : e2.v2 = ((cyclicPairs f.vertices).getD i (0, 0)).1 := h2
      rw [h1s, h2s, findEdge_symm_isSome]
      exact cloneFold_pair_present p.cloneIdMap p.faces _ f hf _ _ hmapped
  · intro e he hnof
    by_contra habs
    rw [Bool.not_eq_false] at habs
    rw [findEdge_isSome_iff] at habs
    obtain ⟨e1, he1, hst1⟩ := habs
    rw [hclone] at he1
    rcases cloneFold_edges_sub p.cloneIdMap p.faces _ e1 he1 with h0 | ⟨f, hf, ab, hab, hst2⟩
    · rw [hedges0] at h0
      exact absurd h0 (List.not_mem_nil e1)
    · have hst3 := sameTwo_trans hst2 hst1
      obtain ⟨hlen, hsubv, hpar⟩ := hface f hf
      obtain ⟨i, hi', habeq⟩ := mem_cyclicPairs_iff.mp hab
      have hi2 : (i + 1) % f.vertices.length < f.vertices.length :=
        Nat.mod_lt _ (by omega)
      have hm1 : ab.1 ∈ f.vertices := by
        rw [habeq]
        show f.vertices.getD i 0 ∈ f.vertices
        rw [List.getD_eq_getElem?_getD, List.getElem?_eq_getElem hi', Option.getD_some]
        exact List.getElem_mem hi'
      have hm2 : ab.2 ∈ f.vertices := by
        rw [habeq]
        show f.vertices.getD ((i + 1) % f.vertices.length) 0 ∈ f.vertices
        rw [List.getD_eq_getElem?_getD, List.getElem?_eq_getElem hi2, Option.getD_some]
        exact List.getElem_mem hi2
      have hstab : sameTwo (ab.1, ab.2) (e.v1, e.v2) := by
        rcases hst3 with ⟨h1, h2⟩ | ⟨h1, h2⟩
        · exact Or.inl ⟨cloneIdMap_inj p hndv (hsubv _ hm1) (hedge e he).2.1 h1,
            cloneIdMap_inj p hndv (hsubv _ hm2) (hedge e he).2.2 h2⟩
        · exact Or.inr ⟨cloneIdMap_inj p hndv (hsubv _ hm1) (hedge e he).2.2 h1,
            cloneIdMap_inj p hndv (hsubv _ hm2) (hedge e he).2.1 h2⟩
      have hi3 : i < f.edges.length := by rw [hlen]; exact hi'
      obtain ⟨e3, he3, hid3, hst4⟩ := hpar i hi3
      have hgetD : (cyclicPairs f.vertices).getD i (0, 0) = ab := by
        rw [cyclicPairs_getD hi', ← habeq]
      rw [hgetD] at hst4
      have hst5 : sameTwo (e3.v1, e3.v2) (e.v1, e.v2) := by
        have hr : sameTwo (e3.v1, e3.v2) (ab.1, ab.2) := by
          rw [show ((ab.1, ab.2) : Nat × Nat) = ab from rfl]
          exact hst4
        exact sameTwo_trans (sameTwo_symm hr) hstab
      have hsymmR : Symmetric (fun e1 e2 : Edge =>
          ¬ sameTwo (e1.v1, e1.v2) (e2.v1, e2.v2)) := by
        intro a b hab2 hs
        exact hab2 (sameTwo_symm hs)
      have he3e : e3 = e := by
        by_contra hne
        exact (hpairw.forall hsymmR he3 he hne) hst5
      apply hnof f hf
      have hideq : e.id = f.edges.getD i 0 := by
        rw [← he3e]
        exact hid3
      rw [hideq, List.getD_eq_getElem?_getD, List.getElem?_eq_getElem hi3,
        Option.getD_some]
      exact List.getElem_mem hi3

set_option maxRecDepth 1000000 in
/-- C10 witness: the tetrahedron seed is coherent, so `Clone` satisfies all
amended clauses there. -/
theorem Clone_spec_witness :
    (Tetrahedron.Clone).name = Tetrahedron.name
      ∧ (Tetrahedron.Clone).vertices.map Vertex.position
          = Tetrahedron.vertices.map Vertex.position
      ∧ List.Forall₂ (fun f g =>
          g.vertices = f.vertices.map Tetrahedron.cloneIdMap
            ∨ g.vertices = (f.vertices.map Tetrahedron.cloneIdMap).reverse)
          Tetrahedron.faces (Tetrahedron.Clone).faces
      ∧ (∀ e ∈ Tetrahedron.edges, (∃ f ∈ Tetrahedron.faces, e.id ∈ f.edges) →
          ((Tetrahedron.Clone).findEdge (Tetrahedron.cloneIdMap e.v1)
            (Tetrahedron.cloneIdMap e.v2)).isSome = true)
      ∧ (∀ e ∈ Tetrahedron.edges, (∀ f ∈ Tetrahedron.faces, e.id ∉ f.edges) →
          ((Tetrahedron.Clone).findEdge (Tetrahedron.cloneIdMap e.v1)
            (Tetrahedron.cloneIdMap e.v2)).isSome = false) :=
  Clone_spec Tetrahedron (by decide)

set_option maxRecDepth 1000000 in
/-- C10 counterexample: a triangle added while only its three vertices
existed, then a fourth vertex below the plane.  The source stores the face
as [1,2,3]; re-adding it during `Clone` applies the winding correction with
the new centroid and stores the reverse — not "the corresponding vertices in
the same order". -/
theorem Clone_reverses_face_order :
    (lateVertexMesh.Clone).faces.map Face.vertices
        ≠ lateVertexMesh.faces.map (fun f => f.vertices.map lateVertexMesh.cloneIdMap)
      ∧ (lateVertexMesh.Clone).faces.map Face.vertices = [[3, 2, 1]]
      ∧ lateVertexMesh.faces.map (fun f => f.vertices.map lateVertexMesh.cloneIdMap)
          = [[1, 2, 3]] := by
  refine ⟨?_, by rfl, by decide⟩
  intro h
  rw [show (lateVertexMesh.Clone).faces.map Face.vertices = [[3, 2, 1]] from rfl] at h
  rw [show lateVertexMesh.faces.map
      (fun f => f.vertices.map lateVertexMesh.cloneIdMap) = [[1, 2, 3]]
    from by decide] at h
  simp at h

/-! ### Lemmas: the dual count swap (C6) -/

theorem dualEdgeStep_eq (p : Polyhedron) (fv : Nat → Nat) (m : Polyhedron) (e : Edge) :
    dualEdgeStep p fv m e
      = if (p.edgeFaces e.id).length == 2
          then (m.AddEdge (fv (p.dualPairIds e).1) (fv (p.dualPairIds e).2)).2
          else m := rfl

theorem dualEdgeStep_vertices (p : Polyhedron) (fv : Nat → Nat) (m : Polyhedron)
    (e : Edge) : (dualEdgeStep p fv m e).vertices = m.vertices := by
  rw [dualEdgeStep_eq]
  split
  · exact AddEdge_vertices _ _ _
  · rfl

theorem dualEdgeStep_faces (p : Polyhedron) (fv : Nat → Nat) (m : Polyhedron)
    (e : Edge) : (dualEdgeStep p fv m e).faces = m.faces := by
  rw [dualEdgeStep_eq]
  split
  · exact AddEdge_faces _ _ _
  · rfl

theorem dualVertexStep_vertices (p : Polyhedron) (fv : Nat → Nat) (m : Polyhedron)
    (v : Vertex) : (dualVertexStep p fv m v).vertices = m.vertices := by
  unfold dualVertexStep
  split
  · exact AddFace_vertices _ _
  · rfl

theorem AddEdge_findEdge_none (p : Polyhedron) (a b x y : Nat)
    (h : (p.findEdge x y).isSome = false)
    (hne : ¬ sameTwo (a, b) (x, y)) :
    ((p.AddEdge a b).2.findEdge x y).isSome = false := by
  by_contra habs
  rw [Bool.not_eq_false, findEdge_isSome_iff] at habs
  obtain ⟨e, he, hst⟩ := habs
  rcases AddEdge_edges_sub p a b he with h1 | ⟨h1, h2⟩
  · have h3 : (p.findEdge x y).isSome = true := (findEdge_isSome_iff p x y).mpr ⟨e, h1, hst⟩
    rw [h3] at h
    exact Bool.noConfusion h
  · apply hne
    rcases hst with ⟨q1, q2⟩ | ⟨q1, q2⟩
    · have q1s : e.v1 = x := q1
      have q2s : e.v2 = y := q2
      exact Or.inl ⟨show a = x by rw [← h1]; exact q1s, show b = y by rw [← h2]; exact q2s⟩
    · have q1s : e.v1 = y := q1
      have q2s : e.v2 = x := q2
      exact Or.inr ⟨show a = y by rw [← h1]; exact q1s, show b = x by rw [← h2]; exact q2s⟩

theorem dualEdgeFold_findEdge_mono (p : Polyhedron) (fv : Nat → Nat) :
    ∀ (es : List Edge) (m : Polyhedron) (x y : Nat),
      (m.findEdge x y).isSome = true →
      ((es.foldl (dualEdgeStep p fv) m).findEdge x y).isSome = true
  | [], _, _, _, h => h
  | e :: es, m, x, y, h => by
    show ((es.foldl (dualEdgeStep p fv) (dualEdgeStep p fv m e)).findEdge x y).isSome = true
    refine dualEdgeFold_findEdge_mono p fv es _ x y ?_
    rw [dualEdgeStep_eq]
    split
    · exact findEdge_mono_AddEdge m _ _ x y h
    · exact h

theorem dualEdgeFold_pair_present (p : Polyhedron) (fv : Nat → Nat) :
    ∀ (es : List Edge) (m : Polyhedron),
      (∀ e ∈ es, (p.edgeFaces e.id).length = 2) →
      ∀ e ∈ es,
        ((es.foldl (dualEdgeStep p fv) m).findEdge
          (fv (p.dualPairIds e).1) (fv (p.dualPairIds e).2)).isSome = true
  | [], _, _, e, he => absurd he (List.not_mem_nil e)
  | e0 :: es, m, h2, e, he => by
    show ((es.foldl (dualEdgeStep p fv) (dualEdgeStep p fv m e0)).findEdge _ _).isSome = true
    rcases List.mem_cons.mp he with rfl | he2
    · refine dualEdgeFold_findEdge_mono p fv es _ _ _ ?_
      rw [dualEdgeStep_eq, if_pos (beq_iff_eq.mpr (h2 e (List.mem_cons_self e es)))]
      exact AddEdge_findEdge_self m _ _
    · exact dualEdgeFold_pair_present p fv es _
        (fun x hx => h2 x (List.mem_cons_of_mem _ hx)) e he2

theorem dualEdgeFold_edges_length (p : Polyhedron) (fv : Nat → Nat) :
    ∀ (es : List Edge) (m : Polyhedron),
      (∀ e ∈ es, (p.edgeFaces e.id).length = 2) →
      (∀ e ∈ es, (m.findEdge (fv (p.dualPairIds e).1)
        (fv (p.dualPairIds e).2)).isSome = false) →
      es.Pairwise (fun e1 e2 =>
        ¬ sameTwo (fv (p.dualPairIds e1).1, fv (p.dualPairIds e1).2)
          (fv (p.dualPairIds e2).1, fv (p.dualPairIds e2).2)) →
      ((es.foldl (dualEdgeStep p fv) m).edges).length = m.edges.length + es.length
  | [], m, _, _, _ => by simp
  | e0 :: es, m, h2, habs, hpw => by
    rw [List.foldl_cons]
    have hcond := beq_iff_eq.mpr (h2 e0 (List.mem_cons_self e0 es))
    have hnone : m.findEdge (fv (p.dualPairIds e0).1) (fv (p.dualPairIds e0).2) = none := by
      cases hfe : m.findEdge (fv (p.dualPairIds e0).1) (fv (p.dualPairIds e0).2) with
      | none => rfl
      | some d =>
        have hh := habs e0 (List.mem_cons_self e0 es)
        rw [hfe] at hh
        exact Bool.noConfusion hh
    have hstep : (dualEdgeStep p fv m e0).edges
        = m.edges ++ [⟨m.nextID + 1, fv (p.dualPairIds e0).1, fv (p.dualPairIds e0).2⟩] := by
      rw [dualEdgeStep_eq, if_pos hcond]
      exact AddEdge_of_none m _ _ hnone
    have habs2 : ∀ e ∈ es, ((dualEdgeStep p fv m e0).findEdge
        (fv (p.dualPairIds e).1) (fv (p.dualPairIds e).2)).isSome = false := by
      intro x hx
      rw [dualEdgeStep_eq, if_pos hcond]
      exact AddEdge_findEdge_none m _ _ _ _ (habs x (List.mem_cons_of_mem _ hx))
        ((List.pairwise_cons.mp hpw).1 x hx)
    rw [dualEdgeFold_edges_length p fv es (dualEdgeStep p fv m e0)
      (fun x hx => h2 x (List.mem_cons_of_mem _ hx)) habs2
      (List.pairwise_cons.mp hpw).2]
    rw [hstep, List.length_append, List.length_singleton, List.length_cons]
    omega

theorem findEdge_eq_of_edges {p q : Polyhedron} (h : p.edges = q.edges) (x y : Nat) :
    p.findEdge x y = q.findEdge x y := by
  unfold Polyhedron.findEdge
  rw [h]

theorem AddFace_edges_of_pairs_present (m : Polyhedron) (vs : List Nat)
    (h : ∀ ab ∈ cyclicPairs vs, (m.findEdge ab.1 ab.2).isSome = true) :
    (m.AddFace vs).edges = m.edges := by
  apply AddFace_edges_of_present
  intro ab hab
  rcases storedVerts_cases m vs with hs | hs
  · rw [hs] at hab
    exact h ab hab
  · rw [hs] at hab
    obtain ⟨a1, a2⟩ := ab
    have hflip := cyclicPairs_reverse hab
    exact (findEdge_symm_isSome m a1 a2).mpr (h _ hflip)

theorem dualVertexFold_edges (p : Polyhedron) (fv : Nat → Nat) :
    ∀ (vs : List Vertex) (m : Polyhedron),
      (∀ v ∈ vs, ∀ ab ∈ cyclicPairs ((p.orderFacesAroundVertex v.id).map (fun f => fv f.id)),
        (m.findEdge ab.1 ab.2).isSome = true) →
      (vs.foldl (dualVertexStep p fv) m).edges = m.edges
  | [], _, _ => rfl
  | v :: vs, m, h => by
    rw [List.foldl_cons]
    have hstep : (dualVertexStep p fv m v).edges = m.edges := by
      unfold dualVertexStep
      split
      · exact AddFace_edges_of_pairs_present m _
          (fun ab hab => h v (List.mem_cons_self v vs) ab hab)
      · rfl
    have h2 : ∀ w ∈ vs,
        ∀ ab ∈ cyclicPairs ((p.orderFacesAroundVertex w.id).map (fun f => fv f.id)),
        ((dualVertexStep p fv m v).findEdge ab.1 ab.2).isSome = true := by
      intro w hw ab hab
      rw [findEdge_eq_of_edges hstep]
      exact h w (List.mem_cons_of_mem _ hw) ab hab
    rw [dualVertexFold_edges p fv vs (dualVertexStep p fv m v) h2, hstep]

theorem dualVertexFold_faces_length (p : Polyhedron) (fv : Nat → Nat) :
    ∀ (vs : List Vertex) (m : Polyhedron),
      (∀ v ∈ vs, 3 ≤ (p.vertexFaces v.id).length) →
      ((vs.foldl (dualVertexStep p fv) m).faces).length = m.faces.length + vs.length
  | [], _, _ => by simp
  | v :: vs, m, h => by
    rw [List.foldl_cons, dualVertexFold_faces_length p fv vs _
      (fun w hw => h w (List.mem_cons_of_mem _ hw))]
    have hstep : (dualVertexStep p fv m v).faces.length = m.faces.length + 1 := by
      unfold dualVertexStep
      rw [if_pos (h v (List.mem_cons_self v vs))]
      exact AddFace_faces_length m _
    rw [hstep, List.length_cons]
    omega

theorem lookup_zip_range_of_mem (ks : List Nat) (s : Nat) (hnd : ks.Nodup)
    (a : Nat) (ha : a ∈ ks) :
    ∃ i, i < ks.length ∧ ks.getD i 0 = a
      ∧ ((ks.zip (List.range' s ks.length)).lookup a).getD 0 = s + i := by
  obtain ⟨i, hlt, hval⟩ := List.mem_iff_getElem.mp ha
  have hgetD : ks.getD i 0 = a := by
    rw [List.getD_eq_getElem?_getD, List.getElem?_eq_getElem hlt, Option.getD_some, hval]
  refine ⟨i, hlt, hgetD, ?_⟩
  rw [← hgetD, lookup_zip_nodup ks (List.range' s ks.length) hnd i hlt (by simpa using hlt)]
  rw [Option.getD_some, List.getD_eq_getElem?_getD,
    List.getElem?_eq_getElem (by simpa using hlt), Option.getD_some, List.getElem_range']
  omega

theorem lookup_zip_range_inj (ks : List Nat) (s : Nat) (hnd : ks.Nodup)
    {a b : Nat} (ha : a ∈ ks) (hb : b ∈ ks)
    (h : ((ks.zip (List.range' s ks.length)).lookup a).getD 0
        = ((ks.zip (List.range' s ks.length)).lookup b).getD 0) : a = b := by
  obtain ⟨i, hi, hga, hia⟩ := lookup_zip_range_of_mem ks s hnd a ha
  obtain ⟨j, hj, hgb, hib⟩ := lookup_zip_range_of_mem ks s hnd b hb
  rw [hia, hib] at h
  have hij : i = j := by omega
  rw [← hga, ← hgb, hij]

theorem dualFv_eq (p : Polyhedron) (fid : Nat) :
    dualFv p fid = (((p.faces.map Face.id).zip
        (List.range' 1 p.faces.length)).lookup fid).getD 0 := by
  unfold dualFv dualFvs
  rw [(addVertsKeyed_spec (newPolyhedron ("d" ++ p.name)) p.faces Face.id
    (fun f => p.faceCentroid f)).2.2.1]
  rfl

theorem dualFv_inj (p : Polyhedron) (hnd : (p.faces.map Face.id).Nodup)
    {a b : Nat} (ha : a ∈ p.faces.map Face.id) (hb : b ∈ p.faces.map Face.id)
    (h : dualFv p a = dualFv p b) : a = b := by
  rw [dualFv_eq, dualFv_eq] at h
  rw [show p.faces.length = (p.faces.map Face.id).length from (List.length_map _ _).symm] at h
  exact lookup_zip_range_inj _ 1 hnd ha hb h

theorem dualPairIds_mem (p : Polyhedron) (e : Edge)
    (h2 : (p.edgeFaces e.id).length = 2) :
    (p.dualPairIds e).1 ∈ p.faces.map Face.id
      ∧ (p.dualPairIds e).2 ∈ p.faces.map Face.id := by
  have h0 : (0 : Nat) < (p.edgeFaces e.id).length := by omega
  have h1 : (1 : Nat) < (p.edgeFaces e.id).length := by omega
  constructor
  · show ((p.edgeFaces e.id).getD 0 ⟨0, [], []⟩).id ∈ _
    rw [List.getD_eq_getElem?_getD, List.getElem?_eq_getElem h0, Option.getD_some]
    exact List.mem_map.mpr ⟨_, List.mem_of_mem_filter (List.getElem_mem h0), rfl⟩
  · show ((p.edgeFaces e.id).getD 1 ⟨0, [], []⟩).id ∈ _
    rw [List.getD_eq_getElem?_getD, List.getElem?_eq_getElem h1, Option.getD_some]
    exact List.mem_map.mpr ⟨_, List.mem_of_mem_filter (List.getElem_mem h1), rfl⟩

theorem sameTwo_map_of (f : Nat → Nat) {a b : Nat × Nat} (h : sameTwo a b) :
    sameTwo (f a.1, f a.2) (f b.1, f b.2) := by
  rcases h with ⟨h1, h2⟩ | ⟨h1, h2⟩
  · exact Or.inl ⟨congrArg f h1, congrArg f h2⟩
  · exact Or.inr ⟨congrArg f h1, congrArg f h2⟩

theorem sameTwo_of_map (f : Nat → Nat) (S : List Nat)
    (hinj : ∀ x ∈ S, ∀ y ∈ S, f x = f y → x = y)
    {a b : Nat × Nat} (h1 : a.1 ∈ S) (h2 : a.2 ∈ S) (h3 : b.1 ∈ S) (h4 : b.2 ∈ S)
    (h : sameTwo (f a.1, f a.2) (f b.1, f b.2)) : sameTwo a b := by
  rcases h with ⟨q1, q2⟩ | ⟨q1, q2⟩
  · exact Or.inl ⟨hinj _ h1 _ h3 q1, hinj _ h2 _ h4 q2⟩
  · exact Or.inr ⟨hinj _ h1 _ h4 q1, hinj _ h2 _ h3 q2⟩

/-- C6: for a closed-manifold mesh (`dualReady`: distinct face identifiers,
every edge on exactly two faces, every vertex on at least three, distinct
edges separating distinct face pairs, and the face-ordering traversal
returning genuine edge-adjacent cycles — all satisfied by the seeds and by
well-formed operator results), `dual` swaps the vertex and face counts and
preserves the edge count. -/
theorem dual_count_swap (p : Polyhedron) (h : dualReady p) :
    (dualOp p).counts = (p.faces.length, p.edges.length, p.vertices.length) := by
  obtain ⟨hnd, h2, h3, h4, h5⟩ := h
  have hdual : dualOp p
      = ((p.vertices.foldl (dualVertexStep p (dualFv p))
          (p.edges.foldl (dualEdgeStep p (dualFv p)) (dualFvs p).1))).Normalize := rfl
  have hspec := addVertsKeyed_spec (newPolyhedron ("d" ++ p.name)) p.faces Face.id
    (fun f => p.faceCentroid f)
  have hE0 : (dualFvs p).1.edges = [] := by
    show (addVertsKeyed (newPolyhedron ("d" ++ p.name)) p.faces Face.id
      (fun f => p.faceCentroid f)).1.edges = []
    rw [hspec.2.2.2.1]
    rfl
  have hF0 : (dualFvs p).1.faces = [] := by
    show (addVertsKeyed (newPolyhedron ("d" ++ p.name)) p.faces Face.id
      (fun f => p.faceCentroid f)).1.faces = []
    rw [hspec.2.2.2.2.1]
    rfl
  have hVlen : (dualFvs p).1.vertices.length = p.faces.length := by
    show (addVertsKeyed (newPolyhedron ("d" ++ p.name)) p.faces Face.id
      (fun f => p.faceCentroid f)).1.vertices.length = p.faces.length
    rw [addVertsKeyed_vertices_length]
    rw [show (newPolyhedron ("d" ++ p.name)).vertices.length = 0 from rfl]
    omega
  have hpw_mapped : p.edges.Pairwise (fun e1 e2 =>
      ¬ sameTwo (dualFv p (p.dualPairIds e1).1, dualFv p (p.dualPairIds e1).2)
        (dualFv p (p.dualPairIds e2).1, dualFv p (p.dualPairIds e2).2)) := by
    refine List.Pairwise.imp_of_mem ?_ h4
    intro e1 e2 he1 he2 hne hs
    apply hne
    exact sameTwo_of_map (dualFv p) (p.faces.map Face.id)
      (fun x hx y hy => dualFv_inj p hnd hx hy)
      (dualPairIds_mem p e1 (h2 e1 he1)).1 (dualPairIds_mem p e1 (h2 e1 he1)).2
      (dualPairIds_mem p e2 (h2 e2 he2)).1 (dualPairIds_mem p e2 (h2 e2 he2)).2 hs
  have habs0 : ∀ e ∈ p.edges, ((dualFvs p).1.findEdge
      (dualFv p (p.dualPairIds e).1) (dualFv p (p.dualPairIds e).2)).isSome = false := by
    intro e he
    have hnone : (dualFvs p).1.findEdge (dualFv p (p.dualPairIds e).1)
        (dualFv p (p.dualPairIds e).2) = none := by
      unfold Polyhedron.findEdge
      rw [hE0]
      rfl
    rw [hnone]
    rfl
  have hElen : ((p.edges.foldl (dualEdgeStep p (dualFv p)) (dualFvs p).1).edges).length
      = p.edges.length := by
    rw [dualEdgeFold_edges_length p (dualFv p) p.edges (dualFvs p).1 h2 habs0 hpw_mapped,
      hE0]
    simp
  have hpresent : ∀ v ∈ p.vertices,
      ∀ ab ∈ cyclicPairs ((p.orderFacesAroundVertex v.id).map (fun f => dualFv p f.id)),
      ((p.edges.foldl (dualEdgeStep p (dualFv p)) (dualFvs p).1).findEdge
        ab.1 ab.2).isSome = true := by
    intro v hv ab hab
    have hmm : (p.orderFacesAroundVertex v.id).map (fun f => dualFv p f.id)
        = ((p.orderFacesAroundVertex v.id).map Face.id).map (dualFv p) := by
      rw [List.map_map]
      rfl
    rw [hmm, cyclicPairs_map] at hab
    obtain ⟨fg, hfg, hmapeq⟩ := List.mem_map.mp hab
    obtain ⟨e, he, hst⟩ := h5 v hv fg hfg
    have hpres := dualEdgeFold_pair_present p (dualFv p) p.edges (dualFvs p).1 h2 e he
    have hst2 : sameTwo (dualFv p (p.dualPairIds e).1, dualFv p (p.dualPairIds e).2)
        (dualFv p fg.1, dualFv p fg.2) := sameTwo_map_of (dualFv p) hst
    rw [findEdge_isSome_iff] at hpres ⊢
    obtain ⟨ed, hed, hsted⟩ := hpres
    refine ⟨ed, hed, ?_⟩
    have hedfg : sameTwo (ed.v1, ed.v2) (dualFv p fg.1, dualFv p fg.2) :=
      sameTwo_trans (sameTwo_symm hsted) hst2
    rw [← hmapeq]
    exact hedfg
  have hEd2 : (p.vertices.foldl (dualVertexStep p (dualFv p))
      (p.edges.foldl (dualEdgeStep p (dualFv p)) (dualFvs p).1)).edges
      = (p.edges.foldl (dualEdgeStep p (dualFv p)) (dualFvs p).1).edges :=
    dualVertexFold_edges p (dualFv p) p.vertices _ hpresent
  have hFlen : ((p.vertices.foldl (dualVertexStep p (dualFv p))
      (p.edges.foldl (dualEdgeStep p (dualFv p)) (dualFvs p).1)).faces).length
      = p.vertices.length := by
    rw [dualVertexFold_faces_length p (dualFv p) p.vertices _ h3]
    rw [foldl_faces (dualEdgeStep p (dualFv p))
      (fun m e => dualEdgeStep_faces p (dualFv p) m e) p.edges _, hF0]
    simp
  rw [hdual, Normalize_counts]
  unfold Polyhedron.counts
  rw [Prod.mk.injEq, Prod.mk.injEq]
  refine ⟨?_, ?_, ?_⟩
  · rw [foldl_vertices (dualVertexStep p (dualFv p))
      (fun m v => dualVertexStep_vertices p (dualFv p) m v) p.vertices _,
      foldl_vertices (dualEdgeStep p (dualFv p))
      (fun m e => dualEdgeStep_vertices p (dualFv p) m e) p.edges _]
    exact hVlen
  · rw [hEd2]
    exact hElen
  · exact hFlen

set_option maxRecDepth 1000000 in
/-- C6 witness: the cube seed satisfies all `dualReady` conditions; its dual
has the octahedron counts (6, 12, 8). -/
theorem dual_count_swap_witness :
    (dualOp Cube).counts = (Cube.faces.length, Cube.edges.length, Cube.vertices.length) :=
  dual_count_swap Cube (by decide)

end Conway
